import Mathlib

/-!
# Fivox: event loaders and the voxelize driver

A shallow embedding of `fivox/compartmentLoader.cpp`, `fivox/somaLoader.cpp`
and `apps/voxelize.cpp` (`_sample` and, of `main`, the volume geometry and
the selection of the frame range).

Conventions of the embedding

* `float` is an abstract scalar type `F`.  The loaders only copy report values
  into events, so no structure on `F` is needed for `load`.  Where the code
  does arithmetic (`std::abs`, `/`, `<`) `F` is a linearly ordered field, that
  is, rounding is idealised away; `std::sqrt` is passed in as a function.
* `std::vector` and the event container are lists.  An access outside the
  bounds of a vector is undefined behaviour in the source; the embedding is
  total and returns `none` on that branch.
* `brion::CompartmentReport` is an external library class; it is a record of
  the results of the member functions the loaders call.
-/

namespace Fivox

/-- Modelled from the spec: `event.h` is not among the sources.  Section 3:
"Event: {position: 3D float vector, value: float, radius: float}". -/
structure Event (F : Type) where
  position : F × F × F
  radius : F
  value : F
deriving DecidableEq, Repr

/-- The part of `brion::CompartmentReport` used by the loaders:
`loadFrame( time )` (a null pointer is `none`), `getGIDs()`, `getOffsets()`,
`getStartTime()`, `getEndTime()` and `getTimestep()`. -/
structure CompartmentReport (F : Type) where
  loadFrame : F → Option (List F)
  gids : List Nat
  offsets : List (List Nat)
  startTime : F
  endTime : F
  timestep : F

/-- The statement `_output[i].value = v`.  `EventSource::operator[]` indexes
the event vector; `none` is the out-of-range access. -/
def EventSource.setValue {F : Type} (out : List (Event F)) (i : Nat) (v : F) :
    Option (List (Event F)) :=
  match out[i]? with
  | some e => some (out.set i { e with value := v })
  | none => none

/-! ## compartmentLoader.cpp -/

/-- The cutoff distance computed in `CompartmentLoader::Impl::Impl`
(lines 59-65) and handed to `setCutOffDistance`. -/
def CompartmentLoader.cutOffDistance {F : Type} [LinearOrderedField F]
    (sqrt : F → F) (maxError : F) : F :=
  let max : F := -60
  let distance : F := sqrt (|max| / maxError)
  distance

/-- The loop of `CompartmentLoader::Impl::load`:
`for( size_t i = 0; i != values->size(); ++i ) _output[i].value = (*values)[i];` -/
def CompartmentLoader.loadLoop {F : Type} (values : List F) (out : List (Event F)) :
    Option (List (Event F)) :=
  (List.range values.length).foldlM
    (fun out i => (values[i]?).bind (fun v => EventSource.setValue out i v)) out

/-- The function `CompartmentLoader::Impl::load( time )`.  The result is the
returned `ssize_t` together with the events afterwards; `none` is an
out-of-range access. -/
def CompartmentLoader.load {F : Type} (report : CompartmentReport F)
    (out : List (Event F)) (time : F) : Option (Int × List (Event F)) :=
  match report.loadFrame time with
  | none => some (-1, out)
  | some values =>
    (CompartmentLoader.loadLoop values out).map (fun out1 => ((values.length : Int), out1))

/-- The constructor body of `CompartmentLoader` (lines 91-92): the time step
after construction, from the configured one. -/
def CompartmentLoader.dt {F : Type} [LinearOrderedField F]
    (report : CompartmentReport F) (configuredDt : F) : F :=
  if configuredDt < 0 then report.timestep else configuredDt

/-- The function `CompartmentLoader::_getTimeRange`. -/
def CompartmentLoader._getTimeRange {F : Type} (report : CompartmentReport F) : F × F :=
  (report.startTime, report.endTime)

/-! ## somaLoader.cpp -/

/-- The cutoff distance computed in `SomaLoader::Impl::Impl` (lines 58-64). -/
def SomaLoader.cutOffDistance {F : Type} [LinearOrderedField F]
    (sqrt : F → F) (maxError : F) : F :=
  let max : F := -60
  let distance : F := sqrt (|max| / maxError)
  distance

/-- The loop of `SomaLoader::Impl::load`:
`for( size_t i = 0; i < gids.size(); ++i )`
`{ const float v = voltages[offsets[i][0]]; _output[i].value = v; }` -/
def SomaLoader.loadLoop {F : Type} (gids : List Nat) (offsets : List (List Nat))
    (voltages : List F) (out : List (Event F)) : Option (List (Event F)) :=
  (List.range gids.length).foldlM
    (fun out i =>
      (offsets[i]?).bind (fun cell =>
        (cell[0]?).bind (fun offset =>
          (voltages[offset]?).bind (fun v => EventSource.setValue out i v)))) out

/-- The function `SomaLoader::Impl::load( time )`. -/
def SomaLoader.load {F : Type} (report : CompartmentReport F)
    (out : List (Event F)) (time : F) : Option (Int × List (Event F)) :=
  match report.loadFrame time with
  | none => some (-1, out)
  | some frame =>
    let gids := report.gids
    let offsets := report.offsets
    let voltages := frame
    (SomaLoader.loadLoop gids offsets voltages out).map
      (fun out1 => ((gids.length : Int), out1))

/-- The constructor body of `SomaLoader` (lines 96-97). -/
def SomaLoader.dt {F : Type} [LinearOrderedField F]
    (report : CompartmentReport F) (configuredDt : F) : F :=
  if configuredDt < 0 then report.timestep else configuredDt

/-- The function `SomaLoader::_getTimeRange`. -/
def SomaLoader._getTimeRange {F : Type} (report : CompartmentReport F) : F × F :=
  (report.startTime, report.endTime)

/-! ## The common shape of the two load loops -/

/-- The two load loops have one shape: for `i` from `0` up to `n`, the value
`g i` read from the report is stored in `_output[i].value`.  A proof device:
`CompartmentLoader.loadLoop` and `SomaLoader.loadLoop` are instances. -/
def assignLoop {F : Type} (g : Nat → Option F) (n : Nat) (out : List (Event F)) :
    Option (List (Event F)) :=
  (List.range n).foldlM (fun out i => (g i).bind (fun v => EventSource.setValue out i v)) out

/-- The value that `SomaLoader::Impl::load` reads for cell `i`:
`voltages[offsets[i][0]]`, `none` when one of the three accesses is out of
range. -/
def SomaLoader.somaValue {F : Type} (offsets : List (List Nat)) (voltages : List F)
    (i : Nat) : Option F :=
  (offsets[i]?).bind (fun cell => (cell[0]?).bind (fun offset => voltages[offset]?))

/-! ## The bounding box of an event source -/

/-- Modelled from the spec: `EventSource::getBoundingBox` and the `AABBf`
class are not among the sources.  Section 3: "Bounding box (AABB): min/max
corners over all event positions".  The result is the pair (minimum corner,
maximum corner); `none` is the box of an empty source. -/
def EventSource.boundingBox {F : Type} [LinearOrder F] (events : List (Event F)) :
    Option ((F × F × F) × (F × F × F)) :=
  match events.map Event.position with
  | [] => none
  | p :: ps =>
    some (ps.foldl
      (fun box q =>
        ((min box.1.1 q.1, min box.1.2.1 q.2.1, min box.1.2.2 q.2.2),
         (max box.2.1 q.1, max box.2.2.1 q.2.1, max box.2.2.2 q.2.2)))
      (p, p))

/-! ## Frame ranges -/

/-- Modelled from the spec: `EventSource::getFrameRange` is not among the
sources.  Section 3: "FrameRange: half-open integer interval [start, end) of
frame indices derived from a source's declared time range and the configured
time step dt"; glossary: "Frame: a discrete time index at fixed step dt within
a source's declared or streamed time range".  The indices `i` whose time
`i * dt` lies in the time range `[start, end)` run from `⌈start / dt⌉` up to
`⌈end / dt⌉`. -/
def EventSource.getFrameRange {F : Type} [LinearOrderedField F] [FloorRing F]
    (timeRange : F × F) (dt : F) : Nat × Nat :=
  (⌈timeRange.1 / dt⌉.toNat, ⌈timeRange.2 / dt⌉.toNat)

/-- Modelled from the spec: the spike loader and its stream reader are not
among the sources; only the test `fivoxSpikes_stream_source_frame_range` is.
What the frame range of a streaming spike source depends on: the greatest
timestamp delivered so far (`none` before the first spike) and whether the
stream has been closed. -/
structure SpikeStream (F : Type) where
  latest : Option F
  closed : Bool
deriving DecidableEq, Repr

/-- Modelled from the spec: what happens to a spike stream, a batch of spike
timestamps is written or the stream is closed (`writeSpikes` and `close` in
the test). -/
inductive StreamEvent (F : Type) where
  | write (spikes : List F)
  | close
deriving DecidableEq, Repr

/-- Modelled from the spec: the stream with no spike delivered yet. -/
def SpikeStream.empty {F : Type} : SpikeStream F := { latest := none, closed := false }

/-- Modelled from the spec: the greatest delivered timestamp after one more
spike has been delivered. -/
def SpikeStream.deliver {F : Type} [LinearOrder F] (m : Option F) (t : F) : Option F :=
  match m with
  | none => some t
  | some u => some (max u t)

/-- Modelled from the spec: the effect of a stream event.  A batch raises the
greatest delivered timestamp; nothing is delivered after the stream is
closed. -/
def SpikeStream.step {F : Type} [LinearOrder F] (s : SpikeStream F) :
    StreamEvent F → SpikeStream F
  | StreamEvent.write spikes =>
    if s.closed then s
    else
      { latest := spikes.foldl SpikeStream.deliver s.latest, closed := s.closed }
  | StreamEvent.close => { s with closed := true }

/-- Modelled from the spec: the frame range of a streaming spike source
(Section 4.4 and the literal scenario of Section 8, which is the test
`fivoxSpikes_stream_source_frame_range`).  Frame `i` samples the window that
starts at `i * dt` and is `duration` long.  The range is always
`[0, last-complete-frame-index + 1)`.

* While the stream is open the reader releases the data step by step, a step
  `[t, t + dt)` only once a timestamp strictly greater than its upper bound
  has been delivered ("evidence must exceed the window's upper bound, not
  merely reach it"); frame `i` is complete once the step that starts at the
  end `i * dt + duration` of its window is released, that is once
  `i * dt + duration + dt < latest`.  There are `⌈(latest - duration) / dt⌉ - 1`
  such frames.  (Counting frame `i` as soon as `i * dt + duration < latest`
  would give `[0, 2)` after the spikes up to `1.20`, where the scenario has
  `[0, 1)`.)
* Once the stream is closed every pending frame is complete: the range
  covers every frame whose window lies in the observed span,
  `i * dt + duration ≤ latest`; there are `⌊(latest - duration) / dt⌋ + 1` of
  them. -/
def SpikeStream.getFrameRange {F : Type} [LinearOrderedField F] [FloorRing F]
    (dt duration : F) (s : SpikeStream F) : Nat × Nat :=
  match s.latest with
  | none => (0, 0)
  | some t =>
    if s.closed then (0, (⌊(t - duration) / dt⌋ + 1).toNat)
    else (0, (⌈(t - duration) / dt⌉ - 1).toNat)

/-- The batches of the test `fivoxSpikes_stream_source_frame_range`
(tests/sources.cpp, lines 262-263 and alike):
`for( uint32_t i = first; i <= last; ++i ) spikes.insert( i / 100.0f )`. -/
def spikeBatch (first last : Nat) : List ℚ :=
  (List.range' first (last + 1 - first)).map (fun i : Nat => (i : ℚ) / 100)

/-! ## apps/voxelize.cpp -/

/-- An effect of `_sample` on the file system: a volume written by
`writer->Update()` or a projection image written by `imageWriter->Update()`,
with the file name and the content. -/
inductive Output (V I : Type) where
  | volume (name : String) (content : V)
  | image (name : String) (content : I)
deriving DecidableEq, Repr

/-- The collaborators of `_sample`, which are outside `voxelize.cpp`:
`load` is `source->getFunctor()->getSource()->load( i )`, giving the returned
count (negative on failure) and the event source afterwards; `voxelize` is
the content of the volume after `source->Modified(); writer->Update()`, a
function of the event source; `project` is the projection filter with its
settings (axis, pixel size `1.0 / volumeResolution`, sigma). -/
structure Pipeline (S V I : Type) where
  load : S → Nat → Int × S
  voxelize : S → V
  project : V → I

/-- The text that `fileStream << std::setfill('0') << std::setw( numDigits ) << i`
appends: the decimal digits of `i`, padded on the left with `0` to at least
`numDigits` characters. -/
def zeroFilled (numDigits i : Nat) : String :=
  String.mk (List.replicate (numDigits - (toString i).length) '0') ++ toString i

/-- The file name of frame `i` in `_sample` (lines 87-99).  The difference
`frameRange.y() - frameRange.x()` is computed on 32-bit unsigned integers. -/
def fileName (frameRange : Nat × Nat) (outputFile : String) (i : Nat) : String :=
  let numDigits := (toString frameRange.2).length
  if (frameRange.2 + 4294967296 - frameRange.1) % 4294967296 > 1 then
    outputFile ++ zeroFilled numDigits i
  else
    outputFile

/-- One iteration of the loop of `_sample` (lines 90-130) for frame `i`, on
the event source and the outputs written so far. -/
def sampleFrame {S V I : Type} (p : Pipeline S V I) (frameRange : Nat × Nat)
    (vsdProjection : Bool) (outputFile : String)
    (st : S × List (Output V I)) (i : Nat) : S × List (Output V I) :=
  let filename := fileName frameRange outputFile i
  let source := (p.load st.1 i).2
  let volumeName := filename ++ ".mhd"
  let input := p.voxelize source
  let written := st.2 ++ [Output.volume volumeName input]
  if !vsdProjection then
    (source, written)
  else
    let imageFile := filename ++ ".vtk"
    (source, written ++ [Output.image imageFile (p.project input)])

/-- The function `_sample` of `voxelize.cpp`: the loop
`for( uint32_t i = frameRange.x(); i < frameRange.y(); ++i )`.  The result is
the event source at the end and the files written, in order. -/
def _sample {S V I : Type} (p : Pipeline S V I) (source : S) (frameRange : Nat × Nat)
    (vsdProjection : Bool) (outputFile : String) : S × List (Output V I) :=
  (List.range' frameRange.1 (frameRange.2 - frameRange.1)).foldl
    (sampleFrame p frameRange vsdProjection outputFile) (source, [])

/-- The event source as `load( i )` leaves it in `_sample`, for the `k`-th
frame of the range (`k = 0` is the first): the loads of the frames
`x, ..., x + k` have run, in this order. -/
def sourceAfterLoad {S V I : Type} (p : Pipeline S V I) (source : S) (x k : Nat) : S :=
  (List.range' x (k + 1)).foldl (fun s i => (p.load s i).2) source

/-! ## apps/voxelize.cpp, `main` -/

/-- The conversion of a `float` to an unsigned integer of `bits` bits: the
value is truncated towards zero; the conversion is undefined (`none`) when
the truncated value is not representable. -/
def floatToUnsigned {F : Type} [LinearOrderedField F] [FloorRing F] (bits : Nat) (x : F) :
    Option Nat :=
  if -1 < x ∧ x < (2 : F) ^ bits then some ⌊x⌋.toNat else none

/-- The frame range selection of `main` (lines 302-320).  `dt` is
`loader->getDt()`; an option that is not given is `none`.  `--time` and
`--frame` go through a `size_t` and are narrowed to 32 bits by `Vector2ui`;
`--times` converts the two quotients to 32-bit unsigned integers. -/
def selectFrameRange {F : Type} [LinearOrderedField F] [FloorRing F] (dt : F)
    (time : Option F) (times : Option (F × F)) (frame : Option Nat)
    (frames : Option (Nat × Nat)) : Option (Nat × Nat) :=
  let frameRange0 : Nat × Nat := (0, 1)
  let afterTime : Option (Nat × Nat) :=
    match time with
    | none => some frameRange0
    | some t =>
      (floatToUnsigned 64 (t / dt)).map
        (fun frame => (frame % 4294967296, (frame + 1) % 4294967296))
  afterTime.bind (fun frameRange1 =>
    let afterTimes : Option (Nat × Nat) :=
      match times with
      | none => some frameRange1
      | some ts =>
        (floatToUnsigned 32 (ts.1 / dt)).bind (fun x =>
          (floatToUnsigned 32 (ts.2 / dt)).map (fun y => (x, y)))
    afterTimes.map (fun frameRange2 =>
      let frameRange3 : Nat × Nat :=
        match frame with
        | none => frameRange2
        | some f => (f % 4294967296, (f + 1) % 4294967296)
      match frames with
      | none => frameRange3
      | some range => range))

/-! ## Decimal digits of a fixed width -/

/-- The `w` lowest decimal digits of `n`, the most significant first.  A
proof device: for `n < 10 ^ w` it is the text that `zeroFilled w n` holds
(`padded_eq_fixedDigits`). -/
def fixedDigits : Nat → Nat → List Char
  | 0, _ => []
  | w + 1, n => fixedDigits w (n / 10) ++ [Nat.digitChar (n % 10)]

/-! ## Theorems -/

/-- C1: for every `maxError > 0` the cutoff distance that the
`CompartmentLoader` constructor and the `SomaLoader` constructor compute is
`sqrt( 60 / maxError )`, the reference value being the fixed `-60`; the two
loaders compute the same distance for the same `maxError`. -/
theorem cutOffDistance_eq {F : Type} [LinearOrderedField F] (sqrt : F → F)
    (maxError : F) (_h : 0 < maxError) :
    CompartmentLoader.cutOffDistance sqrt maxError = sqrt (|(-60 : F)| / maxError)
      ∧ CompartmentLoader.cutOffDistance sqrt maxError = sqrt (60 / maxError)
      ∧ SomaLoader.cutOffDistance sqrt maxError = sqrt (60 / maxError)
      ∧ CompartmentLoader.cutOffDistance sqrt maxError
          = SomaLoader.cutOffDistance sqrt maxError := by
  have h60 : |(-60 : F)| = 60 := by rw [abs_neg]; exact abs_of_nonneg (by norm_num)
  simp only [CompartmentLoader.cutOffDistance, SomaLoader.cutOffDistance, h60]
  exact ⟨trivial, trivial, trivial, trivial⟩

/-- Witness of C1 over the reals with the real square root: at
`maxError = 15` both loaders pass `sqrt( 60 / 15 ) = 2`. -/
theorem cutOffDistance_eq_witness :
    (0 : ℝ) < 15
      ∧ CompartmentLoader.cutOffDistance Real.sqrt 15 = 2
      ∧ SomaLoader.cutOffDistance Real.sqrt 15 = 2 := by
  have h := cutOffDistance_eq Real.sqrt 15 (by norm_num)
  have h4 : Real.sqrt (60 / 15) = 2 := by
    have : (60 : ℝ) / 15 = 2 ^ 2 := by norm_num
    rw [this, Real.sqrt_sq (by norm_num)]
  refine ⟨by norm_num, ?_, ?_⟩
  · rw [h.2.1, h4]
  · rw [h.2.2.1, h4]

theorem setValue_eq_some {F : Type} {out out1 : List (Event F)} {i : Nat} {v : F}
    (h : EventSource.setValue out i v = some out1) :
    ∃ e, out[i]? = some e ∧ out1 = out.set i { e with value := v } := by
  unfold EventSource.setValue at h
  cases he : out[i]? with
  | none => rw [he] at h; cases h
  | some e =>
    rw [he] at h
    exact ⟨e, rfl, (Option.some.inj h).symm⟩

theorem setValue_of_lt {F : Type} (out : List (Event F)) {i : Nat} (v : F)
    (h : i < out.length) :
    EventSource.setValue out i v = some (out.set i { out[i] with value := v }) := by
  unfold EventSource.setValue
  rw [List.getElem?_eq_getElem h]

theorem assignLoop_zero {F : Type} (g : Nat → Option F) (out : List (Event F)) :
    assignLoop g 0 out = some out := rfl

theorem assignLoop_succ {F : Type} (g : Nat → Option F) (n : Nat) (out : List (Event F)) :
    assignLoop g (n + 1) out
      = (assignLoop g n out).bind
          (fun o => (g n).bind (fun v => EventSource.setValue o n v)) := by
  unfold assignLoop
  rw [List.range_succ, List.foldlM_append]
  cases h : List.foldlM
      (fun out i => (g i).bind (fun v => EventSource.setValue out i v)) out (List.range n) with
  | none => rfl
  | some o =>
    simp only [Option.bind_eq_bind, Option.some_bind, List.foldlM_cons, List.foldlM_nil]
    cases h2 : (g n).bind (fun v => EventSource.setValue o n v) with
    | none => rfl
    | some o2 => rfl

/-- What a run of the loop that stays in range has done. -/
theorem assignLoop_spec {F : Type} (g : Nat → Option F) :
    ∀ (n : Nat) (out out1 : List (Event F)), assignLoop g n out = some out1 →
      n ≤ out.length ∧ (∀ i, i < n → ∃ v, g i = some v) ∧ out1.length = out.length
        ∧ ∀ j e, out[j]? = some e →
            out1[j]? = some (if j < n then { e with value := (g j).getD e.value } else e) := by
  intro n
  induction n with
  | zero =>
    intro out out1 h
    rw [assignLoop_zero] at h
    cases h
    refine ⟨Nat.zero_le _, fun i hi => absurd hi (Nat.not_lt_zero i), rfl, ?_⟩
    intro j e he
    simp [he]
  | succ n ih =>
    intro out out1 h
    rw [assignLoop_succ, Option.bind_eq_some] at h
    obtain ⟨o, ho, h2⟩ := h
    rw [Option.bind_eq_some] at h2
    obtain ⟨v, hv, hset⟩ := h2
    obtain ⟨hn, hg, hlen, hval⟩ := ih out o ho
    obtain ⟨e0, he0, hout1⟩ := setValue_eq_some hset
    have hno : n < o.length := (List.getElem?_eq_some.mp he0).1
    refine ⟨by omega, ?_, by rw [hout1, List.length_set, hlen], ?_⟩
    · intro i hi
      rcases Nat.lt_succ_iff_lt_or_eq.mp hi with h1 | h1
      · exact hg i h1
      · exact ⟨v, h1 ▸ hv⟩
    · intro j e he
      have hj := hval j e he
      rw [hout1, List.getElem?_set]
      by_cases hnj : n = j
      · subst hnj
        rw [he0] at hj
        simp only [Nat.lt_irrefl, if_false] at hj
        have : e0 = e := Option.some.inj hj
        subst this
        simp [hno, hv]
      · rw [if_neg hnj, hj]
        have : (j < n + 1) = (j < n) := by
          apply propext; constructor <;> intro h3 <;> omega
        simp only [this]

/-- The loop stays in range when every read and every event index is. -/
theorem assignLoop_total {F : Type} (g : Nat → Option F) :
    ∀ (n : Nat) (out : List (Event F)), n ≤ out.length → (∀ i, i < n → ∃ v, g i = some v) →
      ∃ out1, assignLoop g n out = some out1 := by
  intro n
  induction n with
  | zero => intro out _ _; exact ⟨out, rfl⟩
  | succ n ih =>
    intro out hn hg
    obtain ⟨o, ho⟩ := ih out (by omega) (fun i hi => hg i (by omega))
    obtain ⟨v, hv⟩ := hg n (by omega)
    have hlen := (assignLoop_spec g n out o ho).2.2.1
    have hno : n < o.length := by omega
    refine ⟨o.set n { o[n] with value := v }, ?_⟩
    rw [assignLoop_succ, ho]
    show (g n).bind (fun v => EventSource.setValue o n v) = _
    rw [hv]
    exact setValue_of_lt o v (by omega)

theorem compartment_loadLoop_eq {F : Type} (values : List F) (out : List (Event F)) :
    CompartmentLoader.loadLoop values out
      = assignLoop (fun i => values[i]?) values.length out := rfl

theorem soma_loadLoop_eq {F : Type} (gids : List Nat) (offsets : List (List Nat))
    (voltages : List F) (out : List (Event F)) :
    SomaLoader.loadLoop gids offsets voltages out
      = assignLoop (SomaLoader.somaValue offsets voltages) gids.length out := by
  unfold SomaLoader.loadLoop assignLoop SomaLoader.somaValue
  congr 1
  funext o i
  rw [Option.bind_assoc]
  congr 1
  funext cell
  rw [Option.bind_assoc]

theorem assignLoop_congr {F : Type} (g g2 : Nat → Option F) :
    ∀ (n : Nat) (out : List (Event F)), (∀ i, i < n → g i = g2 i) →
      assignLoop g n out = assignLoop g2 n out := by
  intro n
  induction n with
  | zero => intro out _; rfl
  | succ n ih =>
    intro out h
    rw [assignLoop_succ, assignLoop_succ, ih out (fun i hi => h i (by omega)), h n (by omega)]

/-- Running the loop again on its own result changes nothing. -/
theorem assignLoop_idem {F : Type} (g : Nat → Option F) (n : Nat) (out out1 : List (Event F))
    (h : assignLoop g n out = some out1) : assignLoop g n out1 = some out1 := by
  obtain ⟨hn, hg, hlen, hval⟩ := assignLoop_spec g n out out1 h
  obtain ⟨out2, h2⟩ := assignLoop_total g n out1 (by omega) hg
  obtain ⟨_, _, hlen2, hval2⟩ := assignLoop_spec g n out1 out2 h2
  rw [h2]
  congr 1
  apply List.ext_getElem?
  intro j
  by_cases hj : j < out.length
  · have he := hval j out[j] (List.getElem?_eq_getElem hj)
    rw [hval2 j _ he, he]
    by_cases hjn : j < n
    · obtain ⟨v, hv⟩ := hg j hjn
      simp [hjn, hv]
    · simp [hjn]
  · rw [List.getElem?_eq_none (by omega), List.getElem?_eq_none (by omega)]

/-- The loop writes the `value` field only. -/
theorem assignLoop_frame {F : Type} (g : Nat → Option F) (n : Nat) (out out1 : List (Event F))
    (h : assignLoop g n out = some out1) :
    out1.length = out.length ∧ out1.map Event.position = out.map Event.position
      ∧ out1.map Event.radius = out.map Event.radius := by
  obtain ⟨_, _, hlen, hval⟩ := assignLoop_spec g n out out1 h
  refine ⟨hlen, ?_, ?_⟩
  · apply List.ext_getElem?
    intro j
    rw [List.getElem?_map, List.getElem?_map]
    by_cases hj : j < out.length
    · have he := hval j out[j] (List.getElem?_eq_getElem hj)
      rw [he, List.getElem?_eq_getElem hj]
      by_cases hjn : j < n <;> simp [hjn]
    · rw [List.getElem?_eq_none (by omega), List.getElem?_eq_none (by omega)]
  · apply List.ext_getElem?
    intro j
    rw [List.getElem?_map, List.getElem?_map]
    by_cases hj : j < out.length
    · have he := hval j out[j] (List.getElem?_eq_getElem hj)
      rw [he, List.getElem?_eq_getElem hj]
      by_cases hjn : j < n <;> simp [hjn]
    · rw [List.getElem?_eq_none (by omega), List.getElem?_eq_none (by omega)]

theorem compartment_load_none {F : Type} (report : CompartmentReport F) (out : List (Event F))
    (time : F) (h : report.loadFrame time = none) :
    CompartmentLoader.load report out time = some (-1, out) := by
  unfold CompartmentLoader.load; rw [h]

theorem compartment_load_some {F : Type} (report : CompartmentReport F) (out : List (Event F))
    (time : F) (values : List F) (h : report.loadFrame time = some values) :
    CompartmentLoader.load report out time
      = (assignLoop (fun i => values[i]?) values.length out).map
          (fun out1 => ((values.length : Int), out1)) := by
  unfold CompartmentLoader.load; rw [h]; rfl

theorem soma_load_none {F : Type} (report : CompartmentReport F) (out : List (Event F))
    (time : F) (h : report.loadFrame time = none) :
    SomaLoader.load report out time = some (-1, out) := by
  unfold SomaLoader.load; rw [h]

theorem soma_load_some {F : Type} (report : CompartmentReport F) (out : List (Event F))
    (time : F) (frame : List F) (h : report.loadFrame time = some frame) :
    SomaLoader.load report out time
      = (assignLoop (SomaLoader.somaValue report.offsets frame) report.gids.length out).map
          (fun out1 => ((report.gids.length : Int), out1)) := by
  unfold SomaLoader.load; rw [h]
  show Option.map _ (SomaLoader.loadLoop report.gids report.offsets frame out) = _
  rw [soma_loadLoop_eq]

/-! ### The claims on `load` -/

/-- C3: at every time at which the report yields no frame (`loadFrame`
returns null) `CompartmentLoader::load` and `SomaLoader::load` return the
sentinel `-1`, as a normal return, and leave the events as they were.  The
value either `load` returns is non-negative if and only if the report yields
a frame; and when the report yields a frame and every access is in range the
call does return. -/
theorem load_sentinel {F : Type} (report : CompartmentReport F) (out : List (Event F))
    (time : F) :
    (report.loadFrame time = none →
        CompartmentLoader.load report out time = some (-1, out)
          ∧ SomaLoader.load report out time = some (-1, out))
      ∧ (∀ r out1, CompartmentLoader.load report out time = some (r, out1) →
          (0 ≤ r ↔ ∃ values, report.loadFrame time = some values))
      ∧ (∀ r out1, SomaLoader.load report out time = some (r, out1) →
          (0 ≤ r ↔ ∃ frame, report.loadFrame time = some frame))
      ∧ (∀ values, report.loadFrame time = some values → values.length ≤ out.length →
          ∃ r out1, CompartmentLoader.load report out time = some (r, out1) ∧ 0 ≤ r)
      ∧ (∀ frame, report.loadFrame time = some frame → report.gids.length ≤ out.length →
          (∀ i, i < report.gids.length →
            ∃ v, SomaLoader.somaValue report.offsets frame i = some v) →
          ∃ r out1, SomaLoader.load report out time = some (r, out1) ∧ 0 ≤ r) := by
  refine ⟨fun h => ⟨compartment_load_none report out time h, soma_load_none report out time h⟩,
    ?_, ?_, ?_, ?_⟩
  · intro r out1 h
    cases hf : report.loadFrame time with
    | none =>
      rw [compartment_load_none report out time hf] at h
      have hr : r = -1 := by
        have := congrArg Prod.fst (Option.some.inj h)
        exact this.symm
      subst hr
      constructor
      · intro h0; exact absurd h0 (by decide)
      · rintro ⟨values, hv⟩; cases hv
    | some values =>
      rw [compartment_load_some report out time values hf, Option.map_eq_some'] at h
      obtain ⟨o, _, ho⟩ := h
      have hr : (values.length : Int) = r := congrArg Prod.fst ho
      constructor
      · intro _; exact ⟨values, rfl⟩
      · intro _; rw [← hr]; exact Int.natCast_nonneg _
  · intro r out1 h
    cases hf : report.loadFrame time with
    | none =>
      rw [soma_load_none report out time hf] at h
      have hr : r = -1 := by
        have := congrArg Prod.fst (Option.some.inj h)
        exact this.symm
      subst hr
      constructor
      · intro h0; exact absurd h0 (by decide)
      · rintro ⟨values, hv⟩; cases hv
    | some frame =>
      rw [soma_load_some report out time frame hf, Option.map_eq_some'] at h
      obtain ⟨o, _, ho⟩ := h
      have hr : (report.gids.length : Int) = r := congrArg Prod.fst ho
      constructor
      · intro _; exact ⟨frame, rfl⟩
      · intro _; rw [← hr]; exact Int.natCast_nonneg _
  · intro values hf hn
    obtain ⟨o, ho⟩ := assignLoop_total (fun i => values[i]?) values.length out hn
      (fun i hi => ⟨values[i], List.getElem?_eq_getElem hi⟩)
    refine ⟨(values.length : Int), o, ?_, Int.natCast_nonneg _⟩
    rw [compartment_load_some report out time values hf, ho]; rfl
  · intro frame hf hn hoff
    obtain ⟨o, ho⟩ := assignLoop_total (SomaLoader.somaValue report.offsets frame)
      report.gids.length out hn hoff
    refine ⟨(report.gids.length : Int), o, ?_, Int.natCast_nonneg _⟩
    rw [soma_load_some report out time frame hf, ho]; rfl

/-- Witness of C3: a report over the integers with a frame at time `0` only,
two cells and three events; at time `1` both loaders return `-1` and the
events are untouched. -/
theorem load_sentinel_witness :
    CompartmentLoader.load
        { loadFrame := fun t : Int => if t = 0 then some [5, 7, 9] else none,
          gids := [11, 12], offsets := [[0, 1], [2]],
          startTime := 0, endTime := 10, timestep := 1 }
        [⟨(0, 0, 0), 1, 3⟩, ⟨(1, 0, 0), 1, 4⟩, ⟨(0, 2, 0), 1, 6⟩] 1
      = some (-1, [⟨(0, 0, 0), 1, 3⟩, ⟨(1, 0, 0), 1, 4⟩, ⟨(0, 2, 0), 1, 6⟩])
    ∧ SomaLoader.load
        { loadFrame := fun t : Int => if t = 0 then some [5, 7, 9] else none,
          gids := [11, 12], offsets := [[0, 1], [2]],
          startTime := 0, endTime := 10, timestep := 1 }
        [⟨(0, 0, 0), 1, 3⟩, ⟨(1, 0, 0), 1, 4⟩, ⟨(0, 2, 0), 1, 6⟩] 1
      = some (-1, [⟨(0, 0, 0), 1, 3⟩, ⟨(1, 0, 0), 1, 4⟩, ⟨(0, 2, 0), 1, 6⟩]) :=
  (load_sentinel
    { loadFrame := fun t : Int => if t = 0 then some [5, 7, 9] else none,
      gids := [11, 12], offsets := [[0, 1], [2]],
      startTime := 0, endTime := 10, timestep := 1 }
    [⟨(0, 0, 0), 1, 3⟩, ⟨(1, 0, 0), 1, 4⟩, ⟨(0, 2, 0), 1, 6⟩] 1).1 (by decide)

/-- C4: at every time at which the report yields a frame of `n` values, `n`
not exceeding the number of events, `CompartmentLoader::load` returns `n`;
afterwards event `i` carries the `i`-th value of the frame for every
`i < n`, and the events of index `n` and above are as before. -/
theorem compartment_load_frame {F : Type} (report : CompartmentReport F)
    (out : List (Event F)) (time : F) (values : List F)
    (hf : report.loadFrame time = some values) (hn : values.length ≤ out.length) :
    ∃ out1, CompartmentLoader.load report out time = some ((values.length : Int), out1)
      ∧ out1.length = out.length
      ∧ (∀ i (hi : i < values.length), (out1[i]?).map Event.value = some values[i])
      ∧ (∀ i, values.length ≤ i → out1[i]? = out[i]?) := by
  obtain ⟨o, ho⟩ := assignLoop_total (fun i => values[i]?) values.length out hn
    (fun i hi => ⟨values[i], List.getElem?_eq_getElem hi⟩)
  obtain ⟨_, _, hlen, hval⟩ := assignLoop_spec _ _ out o ho
  refine ⟨o, ?_, hlen, ?_, ?_⟩
  · rw [compartment_load_some report out time values hf, ho]; rfl
  · intro i hi
    have hio : i < out.length := by omega
    rw [hval i out[i] (List.getElem?_eq_getElem hio)]
    simp [hi]
  · intro i hi
    by_cases hio : i < out.length
    · rw [hval i out[i] (List.getElem?_eq_getElem hio), List.getElem?_eq_getElem hio]
      simp [Nat.not_lt.mpr hi]
    · rw [List.getElem?_eq_none (by omega), List.getElem?_eq_none (by omega)]

/-- Witness of C4: a frame of two values loaded into three events. -/
theorem compartment_load_frame_witness :
    ∃ out1,
      CompartmentLoader.load
          { loadFrame := fun t : Int => if t = 0 then some [5, 7] else none,
            gids := [11], offsets := [[0, 1]],
            startTime := 0, endTime := 10, timestep := 1 }
          [⟨(0, 0, 0), 1, 3⟩, ⟨(1, 0, 0), 1, 4⟩, ⟨(0, 2, 0), 1, 6⟩] 0
        = some ((([5, 7] : List Int).length : Int), out1)
      ∧ out1.length = ([⟨(0, 0, 0), 1, 3⟩, ⟨(1, 0, 0), 1, 4⟩, ⟨(0, 2, 0), 1, 6⟩] :
          List (Event Int)).length
      ∧ (∀ i (hi : i < ([5, 7] : List Int).length),
          (out1[i]?).map Event.value = some ([5, 7] : List Int)[i])
      ∧ (∀ i, ([5, 7] : List Int).length ≤ i →
          out1[i]? = ([⟨(0, 0, 0), 1, 3⟩, ⟨(1, 0, 0), 1, 4⟩, ⟨(0, 2, 0), 1, 6⟩] :
            List (Event Int))[i]?) :=
  compartment_load_frame
    { loadFrame := fun t : Int => if t = 0 then some [5, 7] else none,
      gids := [11], offsets := [[0, 1]],
      startTime := 0, endTime := 10, timestep := 1 }
    [⟨(0, 0, 0), 1, 3⟩, ⟨(1, 0, 0), 1, 4⟩, ⟨(0, 2, 0), 1, 6⟩] 0 [5, 7] (by decide) (by decide)

theorem somaValue_eq_some {F : Type} (offsets : List (List Nat)) (voltages : List F)
    (i : Nat) (v : F) :
    SomaLoader.somaValue offsets voltages i = some v
      ↔ ∃ cell offset, offsets[i]? = some cell ∧ cell[0]? = some offset
          ∧ voltages[offset]? = some v := by
  unfold SomaLoader.somaValue
  constructor
  · intro h
    obtain ⟨cell, hc, h2⟩ := Option.bind_eq_some.mp h
    obtain ⟨offset, ho, hv⟩ := Option.bind_eq_some.mp h2
    exact ⟨cell, offset, hc, ho, hv⟩
  · rintro ⟨cell, offset, hc, ho, hv⟩
    rw [hc, Option.some_bind, ho, Option.some_bind, hv]

/-- C5: at every time at which the report yields a frame, `SomaLoader::load`
returns the number `m` of cells (GIDs) of the report; afterwards, for every
cell index `i < m`, event `i` carries the frame value at the first section
offset of the cell, `frame[offsets[i][0]]`.  No other value of the frame
influences the events: two frames that agree at the first offsets of the
cells give the same result.  The accesses of the source are unchecked: the
first part is on every call that returns, the second part says that the call
does return when there is an event for each cell and each cell has a first
section offset inside the frame. -/
theorem soma_load_frame {F : Type} (report : CompartmentReport F)
    (out : List (Event F)) (time : F) (frame : List F)
    (hf : report.loadFrame time = some frame) :
    (∀ r out1, SomaLoader.load report out time = some (r, out1) →
      r = (report.gids.length : Int)
        ∧ ∀ i, i < report.gids.length →
            ∃ cell offset v, report.offsets[i]? = some cell ∧ cell[0]? = some offset
              ∧ frame[offset]? = some v ∧ (out1[i]?).map Event.value = some v)
    ∧ (report.gids.length ≤ out.length →
        (∀ i, i < report.gids.length →
          ∃ cell offset, report.offsets[i]? = some cell ∧ cell[0]? = some offset
            ∧ offset < frame.length) →
        ∃ out1, SomaLoader.load report out time = some ((report.gids.length : Int), out1))
    ∧ (∀ (report2 : CompartmentReport F) (frame2 : List F),
        report2.gids = report.gids → report2.offsets = report.offsets →
        report2.loadFrame time = some frame2 →
        (∀ i cell offset, i < report.gids.length → report.offsets[i]? = some cell →
          cell[0]? = some offset → frame2[offset]? = frame[offset]?) →
        SomaLoader.load report2 out time = SomaLoader.load report out time) := by
  refine ⟨?_, ?_, ?_⟩
  · intro r out1 h
    rw [soma_load_some report out time frame hf, Option.map_eq_some'] at h
    obtain ⟨o, ho, hpair⟩ := h
    have hr : (report.gids.length : Int) = r := congrArg Prod.fst hpair
    have ho1 : o = out1 := congrArg Prod.snd hpair
    subst ho1
    obtain ⟨hn, hg, _, hval⟩ := assignLoop_spec _ _ out o ho
    refine ⟨hr.symm, ?_⟩
    intro i hi
    obtain ⟨v, hv⟩ := hg i hi
    obtain ⟨cell, offset, hc, hoffs, hfv⟩ := (somaValue_eq_some _ _ i v).mp hv
    have hio : i < out.length := by omega
    refine ⟨cell, offset, v, hc, hoffs, hfv, ?_⟩
    rw [hval i out[i] (List.getElem?_eq_getElem hio)]
    simp [hi, hv]
  · intro hev hoff
    have hg : ∀ i, i < report.gids.length →
        ∃ v, SomaLoader.somaValue report.offsets frame i = some v := by
      intro i hi
      obtain ⟨cell, offset, hc, ho, hlt⟩ := hoff i hi
      exact ⟨frame[offset], (somaValue_eq_some _ _ i _).mpr
        ⟨cell, offset, hc, ho, List.getElem?_eq_getElem hlt⟩⟩
    obtain ⟨o, ho⟩ := assignLoop_total (SomaLoader.somaValue report.offsets frame)
      report.gids.length out hev hg
    exact ⟨o, by rw [soma_load_some report out time frame hf, ho]; rfl⟩
  · intro report2 frame2 hgids hoffs hf2 hagree
    rw [soma_load_some report2 out time frame2 hf2, soma_load_some report out time frame hf,
      hgids, hoffs]
    congr 1
    apply assignLoop_congr
    intro i hi
    unfold SomaLoader.somaValue
    cases hc : report.offsets[i]? with
    | none => rfl
    | some cell =>
      show (cell[0]?.bind fun offset => frame2[offset]?)
        = (cell[0]?.bind fun offset => frame[offset]?)
      cases ho : cell[0]? with
      | none => rfl
      | some offset => exact hagree i cell offset hi hc ho

/-- Witness of C5: two cells whose first section offsets are `0` and `2`, a
frame of three values and two events; the call returns `2` and the events
carry the values `5` and `9`. -/
theorem soma_load_frame_witness :
    SomaLoader.load
        { loadFrame := fun t : Int => if t = 0 then some [5, 7, 9] else none,
          gids := [11, 12], offsets := [[0, 1], [2]],
          startTime := 0, endTime := 10, timestep := 1 }
        [⟨(0, 0, 0), 1, 3⟩, ⟨(1, 0, 0), 1, 4⟩] 0
      = some (2, [⟨(0, 0, 0), 1, 5⟩, ⟨(1, 0, 0), 1, 9⟩])
    ∧ (2 : Int) = (([11, 12] : List Nat).length : Int)
    ∧ ∀ i, i < ([11, 12] : List Nat).length →
        ∃ cell offset v, ([[0, 1], [2]] : List (List Nat))[i]? = some cell
          ∧ cell[0]? = some offset ∧ ([5, 7, 9] : List Int)[offset]? = some v
          ∧ (([⟨(0, 0, 0), 1, 5⟩, ⟨(1, 0, 0), 1, 9⟩] : List (Event Int))[i]?).map Event.value
              = some v :=
  ⟨by decide,
    (soma_load_frame
      { loadFrame := fun t : Int => if t = 0 then some [5, 7, 9] else none,
        gids := [11, 12], offsets := [[0, 1], [2]],
        startTime := 0, endTime := 10, timestep := 1 }
      [⟨(0, 0, 0), 1, 3⟩, ⟨(1, 0, 0), 1, 4⟩] 0 [5, 7, 9] (by decide)).1 2
      [⟨(0, 0, 0), 1, 5⟩, ⟨(1, 0, 0), 1, 9⟩] (by decide)⟩

/-- C6: idempotence of `load` on static data.  The frame of the report is a
function of the time alone; calling `CompartmentLoader::load( t )`
(respectively `SomaLoader::load( t )`) twice in a row gives the same return
value and the same events as calling it once, for every `t` and every
initial events. -/
theorem load_idempotent {F : Type} (report : CompartmentReport F) (out : List (Event F))
    (time : F) :
    (CompartmentLoader.load report out time).bind
        (fun first => CompartmentLoader.load report first.2 time)
      = CompartmentLoader.load report out time
    ∧ (SomaLoader.load report out time).bind
        (fun first => SomaLoader.load report first.2 time)
      = SomaLoader.load report out time := by
  constructor
  · cases hf : report.loadFrame time with
    | none =>
      rw [compartment_load_none report out time hf]
      exact compartment_load_none report out time hf
    | some values =>
      rw [compartment_load_some report out time values hf]
      cases ho : assignLoop (fun i => values[i]?) values.length out with
      | none => rfl
      | some o =>
        show CompartmentLoader.load report o time = _
        rw [compartment_load_some report o time values hf, assignLoop_idem _ _ out o ho]
  · cases hf : report.loadFrame time with
    | none =>
      rw [soma_load_none report out time hf]
      exact soma_load_none report out time hf
    | some frame =>
      rw [soma_load_some report out time frame hf]
      cases ho : assignLoop (SomaLoader.somaValue report.offsets frame)
          report.gids.length out with
      | none => rfl
      | some o =>
        show SomaLoader.load report o time = _
        rw [soma_load_some report o time frame hf, assignLoop_idem _ _ out o ho]

/-- C7: at every time and for every events, a call of
`CompartmentLoader::load` or `SomaLoader::load`, successful or failed,
changes nothing but the `value` field of events: the number of events and
the position and radius of every event are the same after the call as
before, and so is the bounding box over the event positions. -/
theorem load_frame_effect {F : Type} [LinearOrder F] (report : CompartmentReport F)
    (out : List (Event F)) (time : F) (r : Int) (out1 : List (Event F))
    (h : CompartmentLoader.load report out time = some (r, out1)
      ∨ SomaLoader.load report out time = some (r, out1)) :
    out1.length = out.length
      ∧ out1.map Event.position = out.map Event.position
      ∧ out1.map Event.radius = out.map Event.radius
      ∧ EventSource.boundingBox out1 = EventSource.boundingBox out := by
  have key : out1.length = out.length ∧ out1.map Event.position = out.map Event.position
      ∧ out1.map Event.radius = out.map Event.radius := by
    rcases h with h | h
    · cases hf : report.loadFrame time with
      | none =>
        rw [compartment_load_none report out time hf] at h
        have : out = out1 := congrArg Prod.snd (Option.some.inj h)
        subst this
        exact ⟨rfl, rfl, rfl⟩
      | some values =>
        rw [compartment_load_some report out time values hf, Option.map_eq_some'] at h
        obtain ⟨o, ho, hpair⟩ := h
        have : o = out1 := congrArg Prod.snd hpair
        subst this
        exact assignLoop_frame _ _ out o ho
    · cases hf : report.loadFrame time with
      | none =>
        rw [soma_load_none report out time hf] at h
        have : out = out1 := congrArg Prod.snd (Option.some.inj h)
        subst this
        exact ⟨rfl, rfl, rfl⟩
      | some frame =>
        rw [soma_load_some report out time frame hf, Option.map_eq_some'] at h
        obtain ⟨o, ho, hpair⟩ := h
        have : o = out1 := congrArg Prod.snd hpair
        subst this
        exact assignLoop_frame _ _ out o ho
  refine ⟨key.1, key.2.1, key.2.2, ?_⟩
  unfold EventSource.boundingBox
  rw [key.2.1]

/-- Witness of C7: a successful `CompartmentLoader::load` of a frame of two
values into three events. -/
theorem load_frame_effect_witness :
    CompartmentLoader.load
        { loadFrame := fun t : Int => if t = 0 then some [5, 7] else none,
          gids := [11], offsets := [[0, 1]],
          startTime := 0, endTime := 10, timestep := 1 }
        [⟨(0, 0, 0), 1, 3⟩, ⟨(1, 0, 0), 1, 4⟩, ⟨(0, 2, 0), 1, 6⟩] 0
      = some (2, [⟨(0, 0, 0), 1, 5⟩, ⟨(1, 0, 0), 1, 7⟩, ⟨(0, 2, 0), 1, 6⟩])
    ∧ EventSource.boundingBox
        ([⟨(0, 0, 0), 1, 5⟩, ⟨(1, 0, 0), 1, 7⟩, ⟨(0, 2, 0), 1, 6⟩] : List (Event Int))
      = EventSource.boundingBox
        ([⟨(0, 0, 0), 1, 3⟩, ⟨(1, 0, 0), 1, 4⟩, ⟨(0, 2, 0), 1, 6⟩] : List (Event Int)) :=
  ⟨by decide,
    (load_frame_effect
      { loadFrame := fun t : Int => if t = 0 then some [5, 7] else none,
        gids := [11], offsets := [[0, 1]],
        startTime := 0, endTime := 10, timestep := 1 }
      [⟨(0, 0, 0), 1, 3⟩, ⟨(1, 0, 0), 1, 4⟩, ⟨(0, 2, 0), 1, 6⟩] 0 2
      [⟨(0, 0, 0), 1, 5⟩, ⟨(1, 0, 0), 1, 7⟩, ⟨(0, 2, 0), 1, 6⟩] (Or.inl (by decide))).2.2.2⟩

/-! ### Frame ranges -/

/-- The frames of the modelled range are the indices whose time `i * dt` lies
in the time range `[start, end)`. -/
theorem getFrameRange_mem {F : Type} [LinearOrderedField F] [FloorRing F]
    (timeRange : F × F) (dt : F) (hdt : 0 < dt) (i : Nat) :
    ((EventSource.getFrameRange timeRange dt).1 ≤ i
        ∧ i < (EventSource.getFrameRange timeRange dt).2)
      ↔ (timeRange.1 ≤ i * dt ∧ (i : F) * dt < timeRange.2) := by
  unfold EventSource.getFrameRange
  simp only [Int.toNat_le, Int.lt_toNat, Int.ceil_le, Int.lt_ceil, Int.cast_natCast]
  rw [div_le_iff₀ hdt, lt_div_iff₀ hdt]

/-- C8: a report whose start time is `0`, end time `10` ms and time step
`0.1` ms, with no dt configured (the configured dt is negative), gives a
`CompartmentLoader` the frame range `[0, 100)`, and a `SomaLoader` over the
same span the identical range.  Both loaders take the time range (report
start, report end) and the same dt, so they report the same range for the
same report span and dt. -/
theorem frameRange_same_span {F : Type} [LinearOrderedField F] [FloorRing F]
    (compartments somas : CompartmentReport F) (configuredDt : F)
    (hs : somas.startTime = compartments.startTime)
    (he : somas.endTime = compartments.endTime)
    (ht : somas.timestep = compartments.timestep) :
    CompartmentLoader._getTimeRange compartments
        = (compartments.startTime, compartments.endTime)
      ∧ SomaLoader._getTimeRange somas = (somas.startTime, somas.endTime)
      ∧ CompartmentLoader.dt compartments configuredDt = SomaLoader.dt somas configuredDt
      ∧ EventSource.getFrameRange (CompartmentLoader._getTimeRange compartments)
            (CompartmentLoader.dt compartments configuredDt)
          = EventSource.getFrameRange (SomaLoader._getTimeRange somas)
            (SomaLoader.dt somas configuredDt)
      ∧ (compartments.startTime = 0 → compartments.endTime = 10 →
          compartments.timestep = 1 / 10 → configuredDt < 0 →
          EventSource.getFrameRange (CompartmentLoader._getTimeRange compartments)
              (CompartmentLoader.dt compartments configuredDt) = (0, 100)
            ∧ EventSource.getFrameRange (SomaLoader._getTimeRange somas)
              (SomaLoader.dt somas configuredDt) = (0, 100)) := by
  have hdt : CompartmentLoader.dt compartments configuredDt
      = SomaLoader.dt somas configuredDt := by
    unfold CompartmentLoader.dt SomaLoader.dt
    rw [ht]
  have hrange : CompartmentLoader._getTimeRange compartments
      = SomaLoader._getTimeRange somas := by
    unfold CompartmentLoader._getTimeRange SomaLoader._getTimeRange
    rw [hs, he]
  have hsame : EventSource.getFrameRange (CompartmentLoader._getTimeRange compartments)
        (CompartmentLoader.dt compartments configuredDt)
      = EventSource.getFrameRange (SomaLoader._getTimeRange somas)
        (SomaLoader.dt somas configuredDt) := by
    rw [hdt, hrange]
  refine ⟨rfl, rfl, hdt, hsame, ?_⟩
  intro h0 h10 hstep hneg
  have hc : EventSource.getFrameRange (CompartmentLoader._getTimeRange compartments)
      (CompartmentLoader.dt compartments configuredDt) = (0, 100) := by
    unfold EventSource.getFrameRange CompartmentLoader._getTimeRange CompartmentLoader.dt
    rw [if_pos hneg, h0, h10, hstep]
    have h100 : (10 : F) / (1 / 10) = ((100 : ℤ) : F) := by norm_num
    have h000 : (0 : F) / (1 / 10) = ((0 : ℤ) : F) := by norm_num
    simp only [h100, h000, Int.ceil_intCast]
    rfl
  exact ⟨hc, hsame ▸ hc⟩

/-- Witness of C8 over the rationals: two reports with the span `[0, 10)` and
the time step `1 / 10`, no dt configured (`-1`). -/
theorem frameRange_same_span_witness :
    EventSource.getFrameRange
        (CompartmentLoader._getTimeRange
          ({ loadFrame := fun _ => none, gids := [1, 2], offsets := [[0, 1], [2]],
             startTime := 0, endTime := 10, timestep := 1 / 10 } : CompartmentReport ℚ))
        (CompartmentLoader.dt
          ({ loadFrame := fun _ => none, gids := [1, 2], offsets := [[0, 1], [2]],
             startTime := 0, endTime := 10, timestep := 1 / 10 } : CompartmentReport ℚ) (-1))
      = (0, 100)
    ∧ EventSource.getFrameRange
        (SomaLoader._getTimeRange
          ({ loadFrame := fun _ => none, gids := [1, 2], offsets := [[0], [1]],
             startTime := 0, endTime := 10, timestep := 1 / 10 } : CompartmentReport ℚ))
        (SomaLoader.dt
          ({ loadFrame := fun _ => none, gids := [1, 2], offsets := [[0], [1]],
             startTime := 0, endTime := 10, timestep := 1 / 10 } : CompartmentReport ℚ) (-1))
      = (0, 100) :=
  (frameRange_same_span
    ({ loadFrame := fun _ => none, gids := [1, 2], offsets := [[0, 1], [2]],
       startTime := 0, endTime := 10, timestep := 1 / 10 } : CompartmentReport ℚ)
    ({ loadFrame := fun _ => none, gids := [1, 2], offsets := [[0], [1]],
       startTime := 0, endTime := 10, timestep := 1 / 10 } : CompartmentReport ℚ)
    (-1) rfl rfl rfl).2.2.2.2 rfl rfl rfl (by norm_num)

/-! ### The streaming spike source -/

theorem latest_write_some {F : Type} [LinearOrder F] (spikes : List F) :
    ∀ u : F, ∃ t, spikes.foldl SpikeStream.deliver (some u) = some t
      ∧ u ≤ t := by
  induction spikes with
  | nil => intro u; exact ⟨u, rfl, le_refl u⟩
  | cons a rest ih =>
    intro u
    obtain ⟨t, ht, hle⟩ := ih (max u a)
    exact ⟨t, ht, le_trans (le_max_left u a) hle⟩

theorem openEnd_mono {F : Type} [LinearOrderedField F] [FloorRing F] (dt duration u t : F)
    (hdt : 0 < dt) (h : u ≤ t) :
    (⌈(u - duration) / dt⌉ - 1).toNat ≤ (⌈(t - duration) / dt⌉ - 1).toNat := by
  apply Int.toNat_le_toNat
  have : (u - duration) / dt ≤ (t - duration) / dt :=
    div_le_div_of_nonneg_right (sub_le_sub_right h duration) (le_of_lt hdt)
  have := Int.ceil_le_ceil this
  omega

theorem openEnd_le_closedEnd {F : Type} [LinearOrderedField F] [FloorRing F] (x : F) :
    (⌈x⌉ - 1).toNat ≤ (⌊x⌋ + 1).toNat := by
  apply Int.toNat_le_toNat
  have := Int.ceil_le_floor_add_one x
  omega

theorem spikeStream_start {F : Type} [LinearOrderedField F] [FloorRing F] (dt duration : F)
    (s : SpikeStream F) : (SpikeStream.getFrameRange dt duration s).1 = 0 := by
  unfold SpikeStream.getFrameRange
  cases s.latest with
  | none => rfl
  | some t => cases s.closed <;> rfl

theorem spikeStream_step_mono {F : Type} [LinearOrderedField F] [FloorRing F]
    (dt duration : F) (hdt : 0 < dt) (s : SpikeStream F) (e : StreamEvent F) :
    (SpikeStream.getFrameRange dt duration s).2
      ≤ (SpikeStream.getFrameRange dt duration (s.step e)).2 := by
  obtain ⟨latest, closed⟩ := s
  cases e with
  | write spikes =>
    cases closed with
    | true => exact le_refl _
    | false =>
      cases latest with
      | none => exact Nat.zero_le _
      | some u =>
        obtain ⟨t, ht, hle⟩ := latest_write_some spikes u
        simp only [SpikeStream.step, SpikeStream.getFrameRange, ht]
        exact openEnd_mono dt duration u t hdt hle
  | close =>
    cases latest with
    | none => exact le_refl _
    | some t =>
      cases closed with
      | true => exact le_refl _
      | false =>
        simp only [SpikeStream.step, SpikeStream.getFrameRange]
        exact openEnd_le_closedEnd _

theorem spikeStream_run_mono {F : Type} [LinearOrderedField F] [FloorRing F]
    (dt duration : F) (hdt : 0 < dt) (events : List (StreamEvent F)) :
    ∀ s : SpikeStream F, (SpikeStream.getFrameRange dt duration s).2
      ≤ (SpikeStream.getFrameRange dt duration (events.foldl SpikeStream.step s)).2 := by
  induction events with
  | nil => intro s; exact le_refl _
  | cons e rest ih =>
    intro s
    exact le_trans (spikeStream_step_mono dt duration hdt s e) (ih (s.step e))

theorem latest_write_eq {F : Type} [LinearOrder F] (spikes : List F) (M : F) :
    ∀ u : F, u ≤ M → (∀ t, t ∈ spikes → t ≤ M) → (M = u ∨ M ∈ spikes) →
      spikes.foldl SpikeStream.deliver (some u) = some M := by
  induction spikes with
  | nil =>
    intro u _ _ hM
    rcases hM with hM | hM
    · rw [hM]; rfl
    · cases hM
  | cons a rest ih =>
    intro u hu hall hM
    have ha : a ≤ M := hall a (List.mem_cons_self a rest)
    show rest.foldl SpikeStream.deliver (some (max u a)) = some M
    apply ih (max u a) (max_le hu ha) (fun t ht => hall t (List.mem_cons_of_mem a ht))
    rcases hM with hM | hM
    · left; rw [hM]; exact (max_eq_left (hM ▸ ha)).symm
    · rcases List.mem_cons.mp hM with hM | hM
      · left; rw [hM]; exact (max_eq_right (hM ▸ hu)).symm
      · right; exact hM

/-- What a batch of the test does to the stream: the greatest delivered
timestamp becomes `last / 100`. -/
theorem spikeBatch_latest (first last : Nat) (m : Option ℚ) (h1 : first ≤ last)
    (hm : ∀ u, m = some u → u ≤ (last : ℚ) / 100) :
    (spikeBatch first last).foldl SpikeStream.deliver m
      = some ((last : ℚ) / 100) := by
  have hall : ∀ t, t ∈ spikeBatch first last → t ≤ (last : ℚ) / 100 := by
    intro t ht
    unfold spikeBatch at ht
    obtain ⟨i, hi, rfl⟩ := List.mem_map.mp ht
    rw [List.mem_range'_1] at hi
    apply div_le_div_of_nonneg_right _ (by norm_num)
    exact_mod_cast (by omega : i ≤ last)
  have hmem : (last : ℚ) / 100 ∈ spikeBatch first last := by
    unfold spikeBatch
    exact List.mem_map.mpr ⟨last, List.mem_range'_1.mpr ⟨h1, by omega⟩, rfl⟩
  cases m with
  | some u => exact latest_write_eq _ _ u (hm u rfl) hall (Or.inr hmem)
  | none =>
    cases hb : spikeBatch first last with
    | nil => rw [hb] at hmem; cases hmem
    | cons a rest =>
      rw [hb] at hall hmem
      show rest.foldl _ (some a) = _
      apply latest_write_eq rest _ a (hall a (List.mem_cons_self a rest))
        (fun t ht => hall t (List.mem_cons_of_mem a ht))
      rcases List.mem_cons.mp hmem with h | h
      · exact Or.inl h
      · exact Or.inr h

theorem step_write_batch (m : Option ℚ) (first last : Nat) (h1 : first ≤ last)
    (hm : ∀ u, m = some u → u ≤ (last : ℚ) / 100) :
    SpikeStream.step { latest := m, closed := false } (StreamEvent.write (spikeBatch first last))
      = { latest := some ((last : ℚ) / 100), closed := false } := by
  simp only [SpikeStream.step, Bool.false_eq_true, if_false]
  rw [spikeBatch_latest first last m h1 hm]

theorem spikeStream_open_counted {F : Type} [LinearOrderedField F] [FloorRing F]
    (dt duration : F) (hdt : 0 < dt) (s : SpikeStream F) (hs : s.closed = false) (i : Nat)
    (hi : i < (SpikeStream.getFrameRange dt duration s).2) :
    ∃ t, s.latest = some t ∧ (i : F) * dt + duration + dt < t := by
  obtain ⟨latest, closed⟩ := s
  simp only at hs
  subst hs
  cases latest with
  | none => exact absurd hi (Nat.not_lt_zero i)
  | some t =>
    refine ⟨t, rfl, ?_⟩
    simp only [SpikeStream.getFrameRange, Bool.false_eq_true, if_false] at hi
    rw [Int.lt_toNat] at hi
    have h2 : ((i : ℤ) + 1) < ⌈(t - duration) / dt⌉ := by omega
    rw [Int.lt_ceil, lt_div_iff₀ hdt] at h2
    push_cast at h2
    linarith

theorem spikeStream_closed_counted {F : Type} [LinearOrderedField F] [FloorRing F]
    (dt duration : F) (hdt : 0 < dt) (s : SpikeStream F) (hs : s.closed = true) (t : F)
    (ht : s.latest = some t) (i : Nat) :
    i < (SpikeStream.getFrameRange dt duration s).2 ↔ (i : F) * dt + duration ≤ t := by
  obtain ⟨latest, closed⟩ := s
  simp only at hs ht
  subst hs ht
  simp only [SpikeStream.getFrameRange, if_true]
  rw [Int.lt_toNat, Int.lt_add_one_iff, Int.le_floor, le_div_iff₀ hdt]
  push_cast
  constructor <;> intro h <;> linarith

/-- The range of an open stream when `(latest - 1) / (1 / 10)` is the integer `n`. -/
theorem spikeStream_open_range (t : ℚ) (n : ℤ) (h : (t - 1) / (1 / 10) = (n : ℚ)) :
    SpikeStream.getFrameRange (1 / 10 : ℚ) 1 { latest := some t, closed := false }
      = (0, (n - 1).toNat) := by
  simp only [SpikeStream.getFrameRange, Bool.false_eq_true, if_false]
  rw [h, Int.ceil_intCast]

/-- The range of a closed stream when `(latest - 1) / (1 / 10)` is the integer `n`. -/
theorem spikeStream_closed_range (t : ℚ) (n : ℤ) (h : (t - 1) / (1 / 10) = (n : ℚ)) :
    SpikeStream.getFrameRange (1 / 10 : ℚ) 1
        (SpikeStream.step { latest := some t, closed := false } StreamEvent.close)
      = (0, (n + 1).toNat) := by
  simp only [SpikeStream.getFrameRange, SpikeStream.step, if_true]
  rw [h, Int.floor_intCast]

/-- C9: the frame range that a streaming spike source reports is
monotonically non-decreasing over every sequence of spike arrivals and stream
closure: its start stays `0` and its end never decreases.  While the stream
is open a frame is only counted once a spike with a timestamp past the upper
bound `i * dt + duration` of its window has arrived; once the stream is
closed the range covers every frame of the observed time span.  On the run of
the test, `dt = 0.1` and `duration = 1`: spikes up to `0.50` give `[0, 0)`,
up to `1.00` `[0, 0)`, up to `1.20` `[0, 1)`, up to `1.50` `[0, 4)`, and the
stream closed after `2.00` `[0, 11)`. -/
theorem spike_frameRange_monotone {F : Type} [LinearOrderedField F] [FloorRing F]
    (dt duration : F) (hdt : 0 < dt) (s : SpikeStream F) (events : List (StreamEvent F)) :
    (SpikeStream.getFrameRange dt duration s).1 = 0
      ∧ (SpikeStream.getFrameRange dt duration (events.foldl SpikeStream.step s)).1 = 0
      ∧ (SpikeStream.getFrameRange dt duration s).2
          ≤ (SpikeStream.getFrameRange dt duration (events.foldl SpikeStream.step s)).2
      ∧ (s.closed = false → ∀ i : Nat, i < (SpikeStream.getFrameRange dt duration s).2 →
          ∃ t, s.latest = some t ∧ (i : F) * dt + duration < t)
      ∧ (s.closed = true → ∀ t, s.latest = some t → ∀ i : Nat,
          (i < (SpikeStream.getFrameRange dt duration s).2 ↔ (i : F) * dt + duration ≤ t))
      ∧ SpikeStream.getFrameRange (1 / 10 : ℚ) 1
          ([StreamEvent.write (spikeBatch 0 50)].foldl SpikeStream.step SpikeStream.empty)
          = (0, 0)
      ∧ SpikeStream.getFrameRange (1 / 10 : ℚ) 1
          ([StreamEvent.write (spikeBatch 0 50),
            StreamEvent.write (spikeBatch 51 100)].foldl SpikeStream.step SpikeStream.empty)
          = (0, 0)
      ∧ SpikeStream.getFrameRange (1 / 10 : ℚ) 1
          ([StreamEvent.write (spikeBatch 0 50), StreamEvent.write (spikeBatch 51 100),
            StreamEvent.write (spikeBatch 101 120)].foldl SpikeStream.step SpikeStream.empty)
          = (0, 1)
      ∧ SpikeStream.getFrameRange (1 / 10 : ℚ) 1
          ([StreamEvent.write (spikeBatch 0 50), StreamEvent.write (spikeBatch 51 100),
            StreamEvent.write (spikeBatch 101 120),
            StreamEvent.write (spikeBatch 121 150)].foldl SpikeStream.step SpikeStream.empty)
          = (0, 4)
      ∧ SpikeStream.getFrameRange (1 / 10 : ℚ) 1
          ([StreamEvent.write (spikeBatch 0 50), StreamEvent.write (spikeBatch 51 100),
            StreamEvent.write (spikeBatch 101 120), StreamEvent.write (spikeBatch 121 150),
            StreamEvent.write (spikeBatch 151 200),
            StreamEvent.close].foldl SpikeStream.step SpikeStream.empty)
          = (0, 11) := by
  have b1 := step_write_batch none 0 50 (by omega) (by intro u h; cases h)
  have b2 := step_write_batch (some ((50 : Nat) / 100)) 51 100 (by omega)
    (by intro u h; cases h; norm_num)
  have b3 := step_write_batch (some ((100 : Nat) / 100)) 101 120 (by omega)
    (by intro u h; cases h; norm_num)
  have b4 := step_write_batch (some ((120 : Nat) / 100)) 121 150 (by omega)
    (by intro u h; cases h; norm_num)
  have b5 := step_write_batch (some ((150 : Nat) / 100)) 151 200 (by omega)
    (by intro u h; cases h; norm_num)
  refine ⟨spikeStream_start dt duration s, spikeStream_start dt duration _,
    spikeStream_run_mono dt duration hdt events s, ?_, ?_, ?_, ?_, ?_, ?_, ?_⟩
  · intro hs i hi
    obtain ⟨t, ht, hlt⟩ := spikeStream_open_counted dt duration hdt s hs i hi
    exact ⟨t, ht, by linarith⟩
  · intro hs t ht i
    exact spikeStream_closed_counted dt duration hdt s hs t ht i
  · simp only [List.foldl, SpikeStream.empty, b1]
    exact spikeStream_open_range (((50 : Nat) : ℚ) / 100) (-5) (by norm_num)
  · simp only [List.foldl, SpikeStream.empty, b1, b2]
    exact spikeStream_open_range (((100 : Nat) : ℚ) / 100) 0 (by norm_num)
  · simp only [List.foldl, SpikeStream.empty, b1, b2, b3]
    exact spikeStream_open_range (((120 : Nat) : ℚ) / 100) 2 (by norm_num)
  · simp only [List.foldl, SpikeStream.empty, b1, b2, b3, b4]
    exact spikeStream_open_range (((150 : Nat) : ℚ) / 100) 5 (by norm_num)
  · simp only [List.foldl, SpikeStream.empty, b1, b2, b3, b4, b5]
    exact spikeStream_closed_range (((200 : Nat) : ℚ) / 100) 10 (by norm_num)

/-- The frame range of a spike source read from a file, Section 8: duration
`1` ms, dt `1` ms, spikes from `0.725` to `9.975` ms, all delivered: `[0, 9)`. -/
theorem spikeStream_file_range :
    SpikeStream.getFrameRange (1 : ℚ) 1 { latest := some (9975 / 1000), closed := true }
      = (0, 9) := by
  simp only [SpikeStream.getFrameRange, if_true]
  have h : ⌊((9975 / 1000 : ℚ) - 1) / 1⌋ = 8 := by
    rw [Int.floor_eq_iff]; constructor <;> norm_num
  rw [h]; rfl

/-- Witness of C9: the run of the test, from the empty stream. -/
theorem spike_frameRange_monotone_witness :
    (0 : ℚ) < 1 / 10
      ∧ (SpikeStream.getFrameRange (1 / 10 : ℚ) 1 SpikeStream.empty).2
          ≤ (SpikeStream.getFrameRange (1 / 10 : ℚ) 1
              ([StreamEvent.write (spikeBatch 0 50), StreamEvent.write (spikeBatch 51 100),
                StreamEvent.write (spikeBatch 101 120), StreamEvent.write (spikeBatch 121 150),
                StreamEvent.write (spikeBatch 151 200),
                StreamEvent.close].foldl SpikeStream.step SpikeStream.empty)).2 :=
  ⟨by norm_num,
    (spike_frameRange_monotone (1 / 10 : ℚ) 1 (by norm_num) SpikeStream.empty
      [StreamEvent.write (spikeBatch 0 50), StreamEvent.write (spikeBatch 51 100),
        StreamEvent.write (spikeBatch 101 120), StreamEvent.write (spikeBatch 121 150),
        StreamEvent.write (spikeBatch 151 200), StreamEvent.close]).2.2.1⟩

/-! ### The loop of `_sample` -/

/-- The state of the loop of `_sample` after the first `n` frames of the
range: the source has been loaded `n` times, and every one of these frames
has its volume (and image) among the outputs. -/
theorem sample_loop_spec {S V I : Type} (p : Pipeline S V I) (source : S)
    (frameRange : Nat × Nat) (vsdProjection : Bool) (outputFile : String) (x : Nat) :
    ∀ n : Nat,
      ((List.range' x n).foldl (sampleFrame p frameRange vsdProjection outputFile)
          (source, [])).1
        = (List.range' x n).foldl (fun s i => (p.load s i).2) source
      ∧ ((List.range' x n).foldl (sampleFrame p frameRange vsdProjection outputFile)
          (source, [])).2.length = n * (if vsdProjection then 2 else 1)
      ∧ ∀ k, k < n →
          Output.volume (fileName frameRange outputFile (x + k) ++ ".mhd")
              (p.voxelize (sourceAfterLoad p source x k))
            ∈ ((List.range' x n).foldl (sampleFrame p frameRange vsdProjection outputFile)
                (source, [])).2
          ∧ (vsdProjection = true →
              Output.image (fileName frameRange outputFile (x + k) ++ ".vtk")
                  (p.project (p.voxelize (sourceAfterLoad p source x k)))
                ∈ ((List.range' x n).foldl
                    (sampleFrame p frameRange vsdProjection outputFile) (source, [])).2) := by
  intro n
  induction n with
  | zero =>
    refine ⟨rfl, by simp, ?_⟩
    intro k hk
    exact absurd hk (Nat.not_lt_zero k)
  | succ n ih =>
    obtain ⟨hsrc, hlen, hmem⟩ := ih
    have hstep : (List.range' x (n + 1)).foldl
          (sampleFrame p frameRange vsdProjection outputFile) (source, [])
        = sampleFrame p frameRange vsdProjection outputFile
            ((List.range' x n).foldl (sampleFrame p frameRange vsdProjection outputFile)
              (source, [])) (x + n) := by
      rw [List.range'_concat, List.foldl_append]; simp
    have hsrc2 : sourceAfterLoad p source x n
        = (p.load ((List.range' x n).foldl (fun s i => (p.load s i).2) source) (x + n)).2 := by
      unfold sourceAfterLoad
      rw [List.range'_concat, List.foldl_append]; simp
    rw [hstep]
    cases vsdProjection with
    | false =>
      simp only [sampleFrame, Bool.not_false, if_true]
      refine ⟨?_, ?_, ?_⟩
      · rw [hsrc, List.range'_concat, List.foldl_append]; simp
      · rw [List.length_append, hlen]; simp
      · intro k hk
        refine ⟨?_, fun h => absurd h (by decide)⟩
        rcases Nat.lt_succ_iff_lt_or_eq.mp hk with h1 | h1
        · exact List.mem_append_left _ (hmem k h1).1
        · subst h1
          apply List.mem_append_right
          rw [hsrc2, hsrc]
          exact List.mem_singleton.mpr rfl
    | true =>
      simp only [sampleFrame, Bool.not_true, Bool.false_eq_true, if_false]
      refine ⟨?_, ?_, ?_⟩
      · rw [hsrc, List.range'_concat, List.foldl_append]; simp
      · rw [List.length_append, List.length_append, hlen]
        simp only [List.length_singleton, if_true]
        omega
      · intro k hk
        rcases Nat.lt_succ_iff_lt_or_eq.mp hk with h1 | h1
        · exact ⟨List.mem_append_left _ (List.mem_append_left _ (hmem k h1).1),
            fun _ => List.mem_append_left _ (List.mem_append_left _ ((hmem k h1).2 rfl))⟩
        · subst h1
          rw [hsrc2, hsrc]
          exact ⟨List.mem_append_left _ (List.mem_append_right _ (List.mem_singleton.mpr rfl)),
            fun _ => List.mem_append_right _ (List.mem_singleton.mpr rfl)⟩

/-- C10, as the code has it: in the loop of `_sample`, for every frame `i` of
the requested range, `load( i )` is called and the count it returns is
discarded; whether `load( i )` succeeded or failed, the pipeline is run
again and a volume is written for frame `i` (and, with the projection, an
image), its content being the voxelization of the event source as
`load( i )` left it.  Every frame of the range writes its files, and two
pipelines whose `load` differ in the returned counts only produce the same
files. -/
theorem sample_writes_every_frame {S V I : Type} (p : Pipeline S V I) (source : S)
    (x y : Nat) (vsdProjection : Bool) (outputFile : String) (i : Nat)
    (hx : x ≤ i) (hy : i < y) :
    Output.volume (fileName (x, y) outputFile i ++ ".mhd")
        (p.voxelize (sourceAfterLoad p source x (i - x)))
      ∈ (_sample p source (x, y) vsdProjection outputFile).2
    ∧ (vsdProjection = true →
        Output.image (fileName (x, y) outputFile i ++ ".vtk")
            (p.project (p.voxelize (sourceAfterLoad p source x (i - x))))
          ∈ (_sample p source (x, y) vsdProjection outputFile).2)
    ∧ (_sample p source (x, y) vsdProjection outputFile).2.length
        = (y - x) * (if vsdProjection then 2 else 1)
    ∧ (∀ q : Pipeline S V I, (∀ s j, (q.load s j).2 = (p.load s j).2) →
        q.voxelize = p.voxelize → q.project = p.project →
        _sample q source (x, y) vsdProjection outputFile
          = _sample p source (x, y) vsdProjection outputFile) := by
  obtain ⟨_, hlen, hmem⟩ :=
    sample_loop_spec p source (x, y) vsdProjection outputFile x (y - x)
  have hk : i - x < y - x := by omega
  have hi : x + (i - x) = i := by omega
  have h := hmem (i - x) hk
  rw [hi] at h
  refine ⟨h.1, h.2, hlen, ?_⟩
  intro q hload hvox hproj
  unfold _sample
  congr 1
  funext st j
  simp only [sampleFrame, hload, hvox, hproj]

/-- Witness of C10 as amended: the range `[3, 5)` and a source whose `load`
fails at every frame; frame `4` has its volume written all the same. -/
theorem sample_writes_every_frame_witness :
    3 ≤ 4 ∧ 4 < 5
      ∧ Output.volume (fileName (3, 5) "volume" 4 ++ ".mhd")
          ((⟨fun s _ => (-1, s), fun s => s, fun v => v⟩ : Pipeline Nat Nat Nat).voxelize
            (sourceAfterLoad (⟨fun s _ => (-1, s), fun s => s, fun v => v⟩ : Pipeline Nat Nat Nat)
              7 3 (4 - 3)))
        ∈ (_sample (⟨fun s _ => (-1, s), fun s => s, fun v => v⟩ : Pipeline Nat Nat Nat)
            7 (3, 5) false "volume").2 :=
  ⟨by decide, by decide,
    (sample_writes_every_frame (⟨fun s _ => (-1, s), fun s => s, fun v => v⟩ : Pipeline Nat Nat Nat)
      7 3 5 false "volume" 4 (by decide) (by decide)).1⟩

/-- C10 as stated fails.  The range is `[0, 2)`; `load( 0 )` succeeds and
turns the source `7` into `8`, `load( 1 )` fails with `-1` and leaves the
source alone.  `_sample` still writes a volume for frame `1`, `volume1.mhd`. -/
theorem sample_failed_load_still_writes :
    ((⟨fun s i => if i = 0 then (1, s + 1) else (-1, s), fun s => s, fun v => v⟩ :
        Pipeline Nat Nat Nat).load 8 1).1 = -1
      ∧ _sample (⟨fun s i => if i = 0 then (1, s + 1) else (-1, s), fun s => s, fun v => v⟩ :
          Pipeline Nat Nat Nat) 7 (0, 2) false "volume"
        = (8, [Output.volume "volume0.mhd" 8, Output.volume "volume1.mhd" 8]) := by
  constructor
  · decide
  · decide

/-! ### The time step after construction -/

/-- C11: after the construction of a `CompartmentLoader` or a `SomaLoader`
the dt of the source is the time step of the report when no dt was
configured (the configured dt is negative), and the configured dt, unchanged,
whenever the configured dt is `>= 0`; in particular the resulting dt is not
negative when the time step of the report is not negative. -/
theorem loader_dt {F : Type} [LinearOrderedField F] (report : CompartmentReport F)
    (configuredDt : F) :
    (configuredDt < 0 →
        CompartmentLoader.dt report configuredDt = report.timestep
          ∧ SomaLoader.dt report configuredDt = report.timestep)
      ∧ (0 ≤ configuredDt →
        CompartmentLoader.dt report configuredDt = configuredDt
          ∧ SomaLoader.dt report configuredDt = configuredDt)
      ∧ (0 ≤ report.timestep →
        0 ≤ CompartmentLoader.dt report configuredDt
          ∧ 0 ≤ SomaLoader.dt report configuredDt) := by
  unfold CompartmentLoader.dt SomaLoader.dt
  refine ⟨?_, ?_, ?_⟩
  · intro h
    rw [if_pos h]
    exact ⟨rfl, rfl⟩
  · intro h
    rw [if_neg (not_lt.mpr h)]
    exact ⟨rfl, rfl⟩
  · intro h
    by_cases hc : configuredDt < 0
    · rw [if_pos hc]; exact ⟨h, h⟩
    · rw [if_neg hc]; exact ⟨not_lt.mp hc, not_lt.mp hc⟩

/-- Witness of C11 over the rationals: a report of time step `1 / 10`; with
no dt configured (`-1`) both loaders take `1 / 10`. -/
theorem loader_dt_witness :
    CompartmentLoader.dt
        ({ loadFrame := fun _ => none, gids := [1], offsets := [[0]],
           startTime := 0, endTime := 10, timestep := 1 / 10 } : CompartmentReport ℚ) (-1)
      = 1 / 10
    ∧ SomaLoader.dt
        ({ loadFrame := fun _ => none, gids := [1], offsets := [[0]],
           startTime := 0, endTime := 10, timestep := 1 / 10 } : CompartmentReport ℚ) (-1)
      = 1 / 10 :=
  (loader_dt
    ({ loadFrame := fun _ => none, gids := [1], offsets := [[0]],
       startTime := 0, endTime := 10, timestep := 1 / 10 } : CompartmentReport ℚ) (-1)).1
    (by norm_num)

/-! ### Index safety of `load` -/

/-- C16: index safety of `load`.  If the event source holds at least as many
events as the frame of the report has values, every event access of
`CompartmentLoader::load` is in range.  If the source holds at least one
event per GID of the report, every cell has at least one section offset, and
the first offset of each cell is smaller than the length of the frame, every
event access and every frame access of `SomaLoader::load` is in range.  In
both cases the call returns: the out-of-range branch `none` of the embedding
is not taken. -/
theorem load_index_safety {F : Type} (report : CompartmentReport F) (out : List (Event F))
    (time : F) :
    ((∀ values, report.loadFrame time = some values → values.length ≤ out.length) →
        CompartmentLoader.load report out time ≠ none
          ∧ ∃ r out1, CompartmentLoader.load report out time = some (r, out1))
      ∧ ((∀ frame, report.loadFrame time = some frame →
            report.gids.length ≤ out.length
              ∧ ∀ i, i < report.gids.length →
                  ∃ cell offset, report.offsets[i]? = some cell ∧ cell[0]? = some offset
                    ∧ offset < frame.length) →
        SomaLoader.load report out time ≠ none
          ∧ ∃ r out1, SomaLoader.load report out time = some (r, out1)) := by
  constructor
  · intro h
    have hex : ∃ r out1, CompartmentLoader.load report out time = some (r, out1) := by
      cases hf : report.loadFrame time with
      | none => exact ⟨-1, out, compartment_load_none report out time hf⟩
      | some values =>
        obtain ⟨o, ho⟩ := assignLoop_total (fun i => values[i]?) values.length out
          (h values hf) (fun i hi => ⟨values[i], List.getElem?_eq_getElem hi⟩)
        exact ⟨(values.length : Int), o,
          by rw [compartment_load_some report out time values hf, ho]; rfl⟩
    obtain ⟨r, out1, hload⟩ := hex
    exact ⟨by rw [hload]; exact Option.some_ne_none _, r, out1, hload⟩
  · intro h
    have hex : ∃ r out1, SomaLoader.load report out time = some (r, out1) := by
      cases hf : report.loadFrame time with
      | none => exact ⟨-1, out, soma_load_none report out time hf⟩
      | some frame =>
        obtain ⟨hev, hoff⟩ := h frame hf
        have hg : ∀ i, i < report.gids.length →
            ∃ v, SomaLoader.somaValue report.offsets frame i = some v := by
          intro i hi
          obtain ⟨cell, offset, hc, ho, hlt⟩ := hoff i hi
          exact ⟨frame[offset], (somaValue_eq_some _ _ i _).mpr
            ⟨cell, offset, hc, ho, List.getElem?_eq_getElem hlt⟩⟩
        obtain ⟨o, ho⟩ := assignLoop_total (SomaLoader.somaValue report.offsets frame)
          report.gids.length out hev hg
        exact ⟨(report.gids.length : Int), o,
          by rw [soma_load_some report out time frame hf, ho]; rfl⟩
    obtain ⟨r, out1, hload⟩ := hex
    exact ⟨by rw [hload]; exact Option.some_ne_none _, r, out1, hload⟩

/-- Witness of C16: two cells with the first section offsets `0` and `2`, a
frame of three values and three events. -/
theorem load_index_safety_witness :
    CompartmentLoader.load
        { loadFrame := fun t : Int => if t = 0 then some [5, 7, 9] else none,
          gids := [11, 12], offsets := [[0, 1], [2]],
          startTime := 0, endTime := 10, timestep := 1 }
        [⟨(0, 0, 0), 1, 3⟩, ⟨(1, 0, 0), 1, 4⟩, ⟨(0, 2, 0), 1, 6⟩] 0 ≠ none
    ∧ SomaLoader.load
        { loadFrame := fun t : Int => if t = 0 then some [5, 7, 9] else none,
          gids := [11, 12], offsets := [[0, 1], [2]],
          startTime := 0, endTime := 10, timestep := 1 }
        [⟨(0, 0, 0), 1, 3⟩, ⟨(1, 0, 0), 1, 4⟩, ⟨(0, 2, 0), 1, 6⟩] 0 ≠ none :=
  ⟨((load_index_safety
      { loadFrame := fun t : Int => if t = 0 then some [5, 7, 9] else none,
        gids := [11, 12], offsets := [[0, 1], [2]],
        startTime := 0, endTime := 10, timestep := 1 }
      [⟨(0, 0, 0), 1, 3⟩, ⟨(1, 0, 0), 1, 4⟩, ⟨(0, 2, 0), 1, 6⟩] 0).1
      (by
        intro values hv
        have h3 : values = [5, 7, 9] := (Option.some.inj hv).symm
        rw [h3]; decide)).1,
   ((load_index_safety
      { loadFrame := fun t : Int => if t = 0 then some [5, 7, 9] else none,
        gids := [11, 12], offsets := [[0, 1], [2]],
        startTime := 0, endTime := 10, timestep := 1 }
      [⟨(0, 0, 0), 1, 3⟩, ⟨(1, 0, 0), 1, 4⟩, ⟨(0, 2, 0), 1, 6⟩] 0).2
      (by
        intro frame hv
        have h3 : frame = [5, 7, 9] := (Option.some.inj hv).symm
        rw [h3]
        refine ⟨by decide, ?_⟩
        intro i hi
        have hi2 : i < 2 := hi
        interval_cases i
        · exact ⟨[0, 1], 0, rfl, rfl, by decide⟩
        · exact ⟨[2], 2, rfl, rfl, by decide⟩)).1⟩

/-! ### The volume geometry -/

theorem toDigitsCore_acc : ∀ (fuel n : Nat) (ds : List Char),
    Nat.toDigitsCore 10 fuel n ds = Nat.toDigitsCore 10 fuel n [] ++ ds := by
  intro fuel
  induction fuel with
  | zero => intro n ds; simp [Nat.toDigitsCore]
  | succ f ih =>
    intro n ds
    simp only [Nat.toDigitsCore]
    by_cases h : n / 10 = 0
    · simp [h]
    · simp only [h, if_false]
      rw [ih (n / 10) (Nat.digitChar (n % 10) :: ds), ih (n / 10) [Nat.digitChar (n % 10)]]
      simp

theorem toDigitsCore_fuel : ∀ (f g n : Nat), n < f → n < g →
    Nat.toDigitsCore 10 f n [] = Nat.toDigitsCore 10 g n [] := by
  intro f
  induction f with
  | zero => intro g n hf; exact absurd hf (Nat.not_lt_zero n)
  | succ f ih =>
    intro g n hf hg
    cases g with
    | zero => exact absurd hg (Nat.not_lt_zero n)
    | succ g =>
      simp only [Nat.toDigitsCore]
      by_cases h : n / 10 = 0
      · simp [h]
      · simp only [h, if_false]
        have hlt : n / 10 < n := Nat.div_lt_self (by omega) (by decide)
        rw [toDigitsCore_acc f, toDigitsCore_acc g, ih g (n / 10) (by omega) (by omega)]

theorem toDigits_lt_ten (n : Nat) (h : n < 10) : Nat.toDigits 10 n = [Nat.digitChar n] := by
  have h0 : n / 10 = 0 := Nat.div_eq_of_lt h
  simp [Nat.toDigits, Nat.toDigitsCore, h0, Nat.mod_eq_of_lt h]

theorem toDigits_ge_ten (n : Nat) (h : 10 ≤ n) :
    Nat.toDigits 10 n = Nat.toDigits 10 (n / 10) ++ [Nat.digitChar (n % 10)] := by
  have h0 : n / 10 ≠ 0 := by omega
  have hlt : n / 10 < n := Nat.div_lt_self (by omega) (by decide)
  have hstep : Nat.toDigitsCore 10 (n + 1) n []
      = Nat.toDigitsCore 10 n (n / 10) [Nat.digitChar (n % 10)] := by
    simp only [Nat.toDigitsCore, h0, if_false]
  unfold Nat.toDigits
  rw [hstep, toDigitsCore_acc, toDigitsCore_fuel n (n / 10 + 1) (n / 10) hlt (by omega)]

theorem lt_pow_toDigits_length : ∀ n : Nat, n < 10 ^ (Nat.toDigits 10 n).length := by
  intro n
  induction n using Nat.strong_induction_on with
  | _ n ih =>
    by_cases h : n < 10
    · rw [toDigits_lt_ten n h]; simpa using h
    · have h10 : 10 ≤ n := by omega
      have hlt : n / 10 < n := Nat.div_lt_self (by omega) (by decide)
      rw [toDigits_ge_ten n h10, List.length_append, List.length_singleton, pow_succ]
      have := ih (n / 10) hlt
      omega

theorem toDigits_length_pos (n : Nat) : 0 < (Nat.toDigits 10 n).length := by
  by_cases h : n < 10
  · rw [toDigits_lt_ten n h]; simp
  · rw [toDigits_ge_ten n (by omega)]; simp

theorem toDigits_length_le : ∀ (w n : Nat), 0 < w → n < 10 ^ w →
    (Nat.toDigits 10 n).length ≤ w := by
  intro w
  induction w with
  | zero => intro n h; exact absurd h (Nat.lt_irrefl 0)
  | succ w ih =>
    intro n _ hn
    by_cases h : n < 10
    · rw [toDigits_lt_ten n h]; simp
    · have h10 : 10 ≤ n := by omega
      rw [toDigits_ge_ten n h10, List.length_append, List.length_singleton]
      have hw : 0 < w := by
        rcases Nat.eq_zero_or_pos w with h0 | h0
        · subst h0; simp at hn; omega
        · exact h0
      have : n / 10 < 10 ^ w := by
        rw [pow_succ] at hn
        exact Nat.div_lt_of_lt_mul (by omega)
      have := ih (n / 10) hw this
      omega

theorem fixedDigits_length : ∀ (w n : Nat), (fixedDigits w n).length = w := by
  intro w
  induction w with
  | zero => intro n; rfl
  | succ w ih => intro n; simp [fixedDigits, ih]

theorem fixedDigits_zero : ∀ w : Nat, fixedDigits w 0 = List.replicate w '0' := by
  intro w
  induction w with
  | zero => rfl
  | succ w ih =>
    simp only [fixedDigits, Nat.zero_div, Nat.zero_mod, ih]
    rw [List.replicate_succ']
    rfl

theorem padded_eq_fixedDigits : ∀ (w n : Nat), 0 < w → n < 10 ^ w →
    List.replicate (w - (Nat.toDigits 10 n).length) '0' ++ Nat.toDigits 10 n
      = fixedDigits w n := by
  intro w
  induction w with
  | zero => intro n h; exact absurd h (Nat.lt_irrefl 0)
  | succ w ih =>
    intro n _ hn
    by_cases h : n < 10
    · rw [toDigits_lt_ten n h]
      simp only [fixedDigits, List.length_singleton, Nat.add_sub_cancel,
        Nat.div_eq_of_lt h, Nat.mod_eq_of_lt h, fixedDigits_zero]
    · have h10 : 10 ≤ n := by omega
      have hw : 0 < w := by
        rcases Nat.eq_zero_or_pos w with h0 | h0
        · subst h0; simp at hn; omega
        · exact h0
      have hdiv : n / 10 < 10 ^ w := by
        rw [pow_succ] at hn
        exact Nat.div_lt_of_lt_mul (by omega)
      rw [toDigits_ge_ten n h10, List.length_append, List.length_singleton]
      simp only [fixedDigits]
      rw [← ih (n / 10) hw hdiv, Nat.add_sub_add_right, List.append_assoc]

theorem digitChar_inj : ∀ a b : Nat, a < 10 → b < 10 →
    Nat.digitChar a = Nat.digitChar b → a = b := by
  intro a b ha hb
  interval_cases a <;> interval_cases b <;> simp [Nat.digitChar]

theorem digitChar_lt : ∀ a b : Nat, a < b → b < 10 →
    Nat.digitChar a < Nat.digitChar b := by
  intro a b hab hb
  interval_cases b <;> interval_cases a <;> decide

theorem fixedDigits_inj : ∀ (w i j : Nat), i < 10 ^ w → j < 10 ^ w →
    fixedDigits w i = fixedDigits w j → i = j := by
  intro w
  induction w with
  | zero => intro i j hi hj _; simp at hi hj; omega
  | succ w ih =>
    intro i j hi hj h
    simp only [fixedDigits] at h
    obtain ⟨h1, h2⟩ := List.append_inj' h rfl
    rw [pow_succ] at hi hj
    have hd : i / 10 = j / 10 :=
      ih (i / 10) (j / 10) (Nat.div_lt_of_lt_mul (by omega)) (Nat.div_lt_of_lt_mul (by omega)) h1
    have hm : i % 10 = j % 10 :=
      digitChar_inj _ _ (Nat.mod_lt _ (by decide)) (Nat.mod_lt _ (by decide))
        (List.singleton_inj.mp h2)
    omega

theorem lex_append_of_length_eq {a b : List Char} (h : List.Lex (· < ·) a b) :
    a.length = b.length → ∀ c d : List Char, List.Lex (· < ·) (a ++ c) (b ++ d) := by
  induction h with
  | nil => intro hlen; simp at hlen
  | cons _ ih =>
    intro hlen c d
    exact List.Lex.cons (ih (by simpa using hlen) c d)
  | rel hr => intro _ c d; exact List.Lex.rel hr

theorem fixedDigits_lex : ∀ (w i j : Nat), i < j → j < 10 ^ w →
    List.Lex (· < ·) (fixedDigits w i) (fixedDigits w j) := by
  intro w
  induction w with
  | zero => intro i j hij hj; simp at hj; omega
  | succ w ih =>
    intro i j hij hj
    simp only [fixedDigits]
    rw [pow_succ] at hj
    by_cases hd : i / 10 < j / 10
    · exact lex_append_of_length_eq (ih (i / 10) (j / 10) hd (Nat.div_lt_of_lt_mul (by omega)))
        (by rw [fixedDigits_length, fixedDigits_length]) _ _
    · have heq : i / 10 = j / 10 := by omega
      have hm : i % 10 < j % 10 := by omega
      rw [heq]
      exact List.Lex.append_left _
        (List.Lex.rel (digitChar_lt _ _ hm (Nat.mod_lt _ (by decide)))) _

/-! ### The file names of `_sample` -/

theorem zeroFilled_eq_fixedDigits (w i : Nat) (hw : 0 < w) (hi : i < 10 ^ w) :
    zeroFilled w i = String.mk (fixedDigits w i) := by
  unfold zeroFilled
  show String.mk (List.replicate (w - (Nat.toDigits 10 i).length) '0' ++ Nat.toDigits 10 i) = _
  rw [padded_eq_fixedDigits w i hw hi]

theorem numDigits_pos (y : Nat) : 0 < (toString y).length :=
  toDigits_length_pos y

theorem lt_pow_numDigits (y : Nat) : y < 10 ^ (toString y).length :=
  lt_pow_toDigits_length y

/-- The name of a frame of a range of more than one frame. -/
theorem fileName_of_many (x y : Nat) (outputFile : String) (i : Nat)
    (hy : y < 4294967296) (h : 1 < y - x) :
    fileName (x, y) outputFile i = outputFile ++ zeroFilled (toString y).length i := by
  unfold fileName
  have hg : (y + 4294967296 - x) % 4294967296 > 1 := by omega
  simp only [hg, if_true]

/-- The name of the frame of a range of one frame. -/
theorem fileName_of_one (x y : Nat) (outputFile : String) (i : Nat) (h : y - x = 1) :
    fileName (x, y) outputFile i = outputFile := by
  unfold fileName
  have hg : ¬ (y + 4294967296 - x) % 4294967296 > 1 := by omega
  simp only [hg, if_false]

/-- The characters of the name of a frame of a range of more than one
frame. -/
theorem fileName_data (x y : Nat) (outputFile : String) (i : Nat)
    (hy : y < 4294967296) (h : 1 < y - x) (hi : i < y) :
    (fileName (x, y) outputFile i).data
      = outputFile.data ++ fixedDigits (toString y).length i := by
  rw [fileName_of_many x y outputFile i hy h,
    zeroFilled_eq_fixedDigits _ i (numDigits_pos y) (lt_trans hi (lt_pow_numDigits y)),
    String.data_append]

/-- C17: for every frame range `[x, y)` with `y - x > 1` the file names that
`_sample` generates for the frames of the range are pairwise distinct and of
the same length: frame `i` is written as the output name followed by `i`
zero-padded to exactly the number of decimal digits of `y`.  No volume of a
frame overwrites the volume of another, and the names sort
lexicographically in the order of the frames.  For a range of exactly one
frame the file name is the output name with no suffix. -/
theorem fileName_distinct_sorted (x y : Nat) (outputFile : String) (hy : y < 4294967296) :
    (1 < y - x →
      (∀ i, x ≤ i → i < y →
        fileName (x, y) outputFile i = outputFile ++ zeroFilled (toString y).length i
          ∧ zeroFilled (toString y).length i
              = String.mk (List.replicate ((toString y).length - (toString i).length) '0')
                  ++ toString i
          ∧ (zeroFilled (toString y).length i).length = (toString y).length
          ∧ (fileName (x, y) outputFile i).length
              = outputFile.length + (toString y).length)
      ∧ (∀ i j, x ≤ i → i < y → x ≤ j → j < y →
          fileName (x, y) outputFile i ++ ".mhd" = fileName (x, y) outputFile j ++ ".mhd" →
          i = j)
      ∧ (∀ i j, x ≤ i → i < j → j < y →
          fileName (x, y) outputFile i < fileName (x, y) outputFile j
            ∧ fileName (x, y) outputFile i ++ ".mhd"
                < fileName (x, y) outputFile j ++ ".mhd"))
    ∧ (y - x = 1 → ∀ i, fileName (x, y) outputFile i = outputFile) := by
  refine ⟨fun h => ⟨?_, ?_, ?_⟩, fun h i => fileName_of_one x y outputFile i h⟩
  · intro i _ hi
    have hfix := zeroFilled_eq_fixedDigits _ i (numDigits_pos y)
      (lt_trans hi (lt_pow_numDigits y))
    have hlen : (zeroFilled (toString y).length i).length = (toString y).length := by
      rw [hfix]
      exact fixedDigits_length _ i
    refine ⟨fileName_of_many x y outputFile i hy h, rfl, hlen, ?_⟩
    rw [fileName_of_many x y outputFile i hy h, String.length_append, hlen]
  · intro i j _ hi _ hj heq
    have hd := congrArg String.data heq
    rw [String.data_append, String.data_append, fileName_data x y outputFile i hy h hi,
      fileName_data x y outputFile j hy h hj] at hd
    have h1 := List.append_cancel_left (List.append_cancel_right hd)
    exact fixedDigits_inj _ i j (lt_trans hi (lt_pow_numDigits y))
      (lt_trans hj (lt_pow_numDigits y)) h1
  · intro i j _ hij hj
    have hi : i < y := lt_trans hij hj
    have hlex := fixedDigits_lex (toString y).length i j hij (lt_trans hj (lt_pow_numDigits y))
    constructor
    · rw [String.lt_iff_toList_lt]
      show List.Lex (· < ·) (fileName (x, y) outputFile i).data (fileName (x, y) outputFile j).data
      rw [fileName_data x y outputFile i hy h hi, fileName_data x y outputFile j hy h hj]
      exact List.Lex.append_left _ hlex _
    · rw [String.lt_iff_toList_lt]
      show List.Lex (· < ·) (fileName (x, y) outputFile i ++ ".mhd").data
        (fileName (x, y) outputFile j ++ ".mhd").data
      rw [String.data_append, String.data_append, fileName_data x y outputFile i hy h hi,
        fileName_data x y outputFile j hy h hj, List.append_assoc, List.append_assoc]
      exact List.Lex.append_left _
        (lex_append_of_length_eq hlex (by rw [fixedDigits_length, fixedDigits_length]) _ _) _

/-- Witness of C17: the range `[8, 12)` and the output name `volume`; the
frames `9` and `10` are written as `volume09` and `volume10`. -/
theorem fileName_distinct_sorted_witness :
    (12 : Nat) < 4294967296 ∧ 1 < 12 - 8
      ∧ fileName (8, 12) "volume" 9 = "volume09"
      ∧ fileName (8, 12) "volume" 10 = "volume10"
      ∧ fileName (8, 12) "volume" 9 < fileName (8, 12) "volume" 10 :=
  ⟨by decide, by decide, by decide, by decide,
    (((fileName_distinct_sorted 8 12 "volume" (by decide)).1 (by decide)).2.2 9 10
      (by decide) (by decide) (by decide)).1⟩

/-- Every file that the loop of `_sample` has written after the first `n`
frames of the range is the volume or the image of one of these frames. -/
theorem sample_loop_outputs {S V I : Type} (p : Pipeline S V I) (source : S)
    (frameRange : Nat × Nat) (vsdProjection : Bool) (outputFile : String) (x : Nat) :
    ∀ n : Nat, ∀ o,
      o ∈ ((List.range' x n).foldl (sampleFrame p frameRange vsdProjection outputFile)
          (source, [])).2 →
      ∃ k, k < n
        ∧ (o = Output.volume (fileName frameRange outputFile (x + k) ++ ".mhd")
                (p.voxelize (sourceAfterLoad p source x k))
          ∨ o = Output.image (fileName frameRange outputFile (x + k) ++ ".vtk")
                (p.project (p.voxelize (sourceAfterLoad p source x k)))) := by
  intro n
  induction n with
  | zero => intro o ho; simp at ho
  | succ n ih =>
    intro o ho
    have hsrc := (sample_loop_spec p source frameRange vsdProjection outputFile x n).1
    have hstep : (List.range' x (n + 1)).foldl
          (sampleFrame p frameRange vsdProjection outputFile) (source, [])
        = sampleFrame p frameRange vsdProjection outputFile
            ((List.range' x n).foldl (sampleFrame p frameRange vsdProjection outputFile)
              (source, [])) (x + n) := by
      rw [List.range'_concat, List.foldl_append]; simp
    have hsrc2 : sourceAfterLoad p source x n
        = (p.load ((List.range' x n).foldl (fun s i => (p.load s i).2) source) (x + n)).2 := by
      unfold sourceAfterLoad
      rw [List.range'_concat, List.foldl_append]; simp
    rw [hstep] at ho
    have hold : ∀ o, o ∈ ((List.range' x n).foldl
        (sampleFrame p frameRange vsdProjection outputFile) (source, [])).2 →
        ∃ k, k < n + 1
          ∧ (o = Output.volume (fileName frameRange outputFile (x + k) ++ ".mhd")
                  (p.voxelize (sourceAfterLoad p source x k))
            ∨ o = Output.image (fileName frameRange outputFile (x + k) ++ ".vtk")
                  (p.project (p.voxelize (sourceAfterLoad p source x k)))) := by
      intro o1 ho1
      obtain ⟨k, hk, hor⟩ := ih o1 ho1
      exact ⟨k, by omega, hor⟩
    cases vsdProjection with
    | false =>
      simp only [sampleFrame, Bool.not_false, if_true] at ho
      rcases List.mem_append.mp ho with h1 | h1
      · exact hold o h1
      · refine ⟨n, by omega, Or.inl ?_⟩
        rw [hsrc2, ← hsrc]
        exact List.mem_singleton.mp h1
    | true =>
      simp only [sampleFrame, Bool.not_true, Bool.false_eq_true, if_false] at ho
      rcases List.mem_append.mp ho with h1 | h1
      · rcases List.mem_append.mp h1 with h2 | h2
        · exact hold o h2
        · refine ⟨n, by omega, Or.inl ?_⟩
          rw [hsrc2, ← hsrc]
          exact List.mem_singleton.mp h2
      · refine ⟨n, by omega, Or.inr ?_⟩
        rw [hsrc2, ← hsrc]
        exact List.mem_singleton.mp h1

/-- The names of the volumes that `_sample` writes.  When the frame range
`[x, y)` holds more than one frame, the name of every volume file contains
the frame number: for every frame `i` of the range the file name is the
output name followed by the decimal digits of `i`, zero-padded to the number
of digits of `y`, plus the extension, and no other volume is written.  When
the range holds one frame the name of the volume is the output name plus the
extension. -/
theorem volume_names {S V I : Type} (p : Pipeline S V I) (source : S) (x y : Nat)
    (vsdProjection : Bool) (outputFile : String) (hy : y < 4294967296) :
    (1 < y - x →
      (∀ i, x ≤ i → i < y →
        ∃ v, Output.volume
            (outputFile
              ++ String.mk (List.replicate ((toString y).length - (toString i).length) '0')
              ++ toString i ++ ".mhd") v
          ∈ (_sample p source (x, y) vsdProjection outputFile).2)
      ∧ (∀ name v,
          Output.volume name v ∈ (_sample p source (x, y) vsdProjection outputFile).2 →
          ∃ i, x ≤ i ∧ i < y
            ∧ name = outputFile
                ++ String.mk (List.replicate ((toString y).length - (toString i).length) '0')
                ++ toString i ++ ".mhd"))
    ∧ (y - x = 1 → ∀ name v,
        Output.volume name v ∈ (_sample p source (x, y) vsdProjection outputFile).2 →
        name = outputFile ++ ".mhd") := by
  have hname : 1 < y - x → ∀ i,
      fileName (x, y) outputFile i ++ ".mhd"
        = outputFile
            ++ String.mk (List.replicate ((toString y).length - (toString i).length) '0')
            ++ toString i ++ ".mhd" := by
    intro h i
    rw [fileName_of_many x y outputFile i hy h]
    unfold zeroFilled
    rw [← String.append_assoc]
  refine ⟨fun h => ⟨?_, ?_⟩, ?_⟩
  · intro i hx hi
    have hk : i - x < y - x := by omega
    have hmem := ((sample_loop_spec p source (x, y) vsdProjection outputFile x (y - x)).2.2
      (i - x) hk).1
    rw [show x + (i - x) = i by omega, hname h i] at hmem
    exact ⟨_, hmem⟩
  · intro name v hmem
    obtain ⟨k, hk, hor⟩ :=
      sample_loop_outputs p source (x, y) vsdProjection outputFile x (y - x) _ hmem
    rcases hor with h1 | h1
    · have hn : name = fileName (x, y) outputFile (x + k) ++ ".mhd" := by
        injection h1
      exact ⟨x + k, by omega, by omega, by rw [hn, hname h (x + k)]⟩
    · cases h1
  · intro h name v hmem
    obtain ⟨k, hk, hor⟩ :=
      sample_loop_outputs p source (x, y) vsdProjection outputFile x (y - x) _ hmem
    rcases hor with h1 | h1
    · have hn : name = fileName (x, y) outputFile (x + k) ++ ".mhd" := by
        injection h1
      rw [hn, fileName_of_one x y outputFile (x + k) h]
    · cases h1

/-- An instance of `volume_names`: the range `[8, 12)`; frame `9` is written
as `volume09.mhd`. -/
theorem volume_names_witness :
    (12 : Nat) < 4294967296 ∧ 1 < 12 - 8
      ∧ "volume" ++ String.mk (List.replicate ((toString 12).length - (toString 9).length) '0')
          ++ toString 9 ++ ".mhd" = "volume09.mhd"
      ∧ ∃ v, Output.volume
          ("volume" ++ String.mk (List.replicate ((toString 12).length - (toString 9).length) '0')
            ++ toString 9 ++ ".mhd") v
        ∈ (_sample (⟨fun s _ => (1, s), fun s => s, fun v => v⟩ : Pipeline Nat Nat Nat)
            7 (8, 12) false "volume").2 :=
  ⟨by decide, by decide, by decide,
    ((volume_names (⟨fun s _ => (1, s), fun s => s, fun v => v⟩ : Pipeline Nat Nat Nat)
      7 8 12 false "volume" (by decide)).1 (by decide)).1 9 (by decide) (by decide)⟩

/-- C12, at a range of one frame: the help text of `--output` says that the
name of the volume file "contains frame number if --frames or --times".
`--frames 5 6` selects the frame range `[5, 6)`, for which `x < y`; the one
volume that `_sample` writes is `volume.mhd`, not `volume5.mhd`, and the
digit `5` of the frame number is not in its name. -/
theorem volume_name_single_frame :
    selectFrameRange (1 : ℚ) none none none (some (5, 6)) = some (5, 6)
      ∧ fileName (5, 6) "volume" 5 = "volume"
      ∧ (_sample (⟨fun s _ => (1, s), fun s => s, fun v => v⟩ : Pipeline Nat Nat Nat)
            7 (5, 6) false "volume").2 = [Output.volume "volume.mhd" 7]
      ∧ "volume.mhd" ≠ "volume" ++ toString 5 ++ ".mhd"
      ∧ ¬ ('5' ∈ ("volume.mhd" : String).data) := by
  refine ⟨rfl, by decide, by decide, by decide, by decide⟩

end Fivox
